import Mathlib

/-!
Verification of the flow request/response correlation and leasing engine
(`mysql_flows.py`).  The database tables are modeled as lists of rows, each
SQL operation as a pure function on a `DB` state.  Times are naturals
(microseconds since epoch); CPU accounting is kept in microseconds (the
seconds/micros conversion in the source is a unit change only).  `NULL`able
columns are `Option`s.  Serialized proto payload columns store the
corresponding structure directly.
-/

namespace GrrFlows

abbrev Micros := Nat

/-- Request key `(client_id, flow_id, request_id)`. -/
abbrev ReqKey := String × String × Nat

/-- Flow key `(client_id, flow_id)`. -/
abbrev FlowKey := String × String

/-- Lifecycle state of a flow (`flows_pb2.Flow.FlowState`). -/
inductive FlowState
  | unset
  | running
  | finished
  | error
  | crashed
deriving DecidableEq, Repr

/-- The `flows_pb2.Flow` proto object, restricted to the fields the engine
reads or writes.  `processing_on = none` models both an unset field and the
cleared state; an empty string is falsy, as in the source's truthiness
checks. -/
structure Flow where
  client_id : String
  flow_id : String
  flow_state : FlowState
  next_request_to_process : Nat
  processing_on : Option String
  processing_since : Option Micros
  processing_deadline : Option Micros
  parent_hunt_id : Option String
  user_cpu_time_used_micros : Nat
  system_cpu_time_used_micros : Nat
  network_bytes_sent : Nat
  num_replies_sent : Nat
deriving DecidableEq, Repr

/-- A row of the `flows` table. -/
structure FlowRow where
  client_id : String
  flow_id : String
  flow : Flow
  flow_state : FlowState
  next_request_to_process : Nat
  processing_on : Option String
  processing_since : Option Micros
  processing_deadline : Option Micros
  parent_hunt_id : Option String
  user_cpu_time_used_micros : Nat
  system_cpu_time_used_micros : Nat
  network_bytes_sent : Nat
  num_replies_sent : Nat
deriving DecidableEq, Repr

/-- The `flows_pb2.FlowRequest` proto message.  `start_time = none` models an
unset (zero) field: the source only ever tests its truthiness. -/
structure FlowRequestMsg where
  client_id : String
  flow_id : String
  request_id : Nat
  needs_processing : Bool
  callback_state : String
  next_response_id : Nat
  start_time : Option Micros
deriving DecidableEq, Repr

/-- A row of the `flow_requests` table.  `responses_expected` is `NULL` until
a `FlowStatus` response stamps it. -/
structure FlowRequestRow where
  client_id : String
  flow_id : String
  request_id : Nat
  needs_processing : Bool
  callback_state : String
  next_response_id : Nat
  start_time : Option Micros
  responses_expected : Option Nat
  request : FlowRequestMsg
deriving DecidableEq, Repr

/-- Which member of the response union {FlowResponse, FlowStatus,
FlowIterator} a message is; the source encodes this by which serialized
column is non-empty. -/
inductive ResponseKind
  | response
  | status
  | iterator
deriving DecidableEq, Repr

/-- A `FlowResponse`/`FlowStatus`/`FlowIterator` message handed to
`WriteFlowResponses`. -/
structure FlowResponseMsg where
  kind : ResponseKind
  client_id : String
  flow_id : String
  request_id : Nat
  response_id : Nat
deriving DecidableEq, Repr

/-- A row of the `flow_responses` table. -/
structure FlowResponseRow where
  client_id : String
  flow_id : String
  request_id : Nat
  response_id : Nat
  payload : FlowResponseMsg
  timestamp : Micros
deriving DecidableEq, Repr

/-- The `flows_pb2.FlowProcessingRequest` proto message. -/
structure FlowProcessingRequestMsg where
  client_id : String
  flow_id : String
  delivery_time : Option Micros
deriving DecidableEq, Repr

/-- A row of the `flow_processing_requests` table. `timestamp` is the
creation time (part of the row's identity used by acknowledgment). -/
structure FlowProcessingRequestRow where
  client_id : String
  flow_id : String
  request : FlowProcessingRequestMsg
  delivery_time : Option Micros
  leased_until : Option Micros
  leased_by : Option String
  timestamp : Micros
deriving DecidableEq, Repr

/-- A row of the `message_handler_requests` table. -/
structure MessageHandlerRequestRow where
  handler_name : String
  request_id : Nat
  leased_until : Option Micros
  leased_by : Option String
  timestamp : Micros
deriving DecidableEq, Repr

/-- The whole database state touched by the engine.  `hunts` maps a hunt id
to its (nullable) `hunt_state` column. -/
structure DB where
  flows : List FlowRow
  flow_requests : List FlowRequestRow
  flow_responses : List FlowResponseRow
  flow_processing_requests : List FlowProcessingRequestRow
  message_handler_requests : List MessageHandlerRequestRow
  hunts : List (String × Option Nat)
deriving DecidableEq, Repr

def FlowResponseMsg.reqKey (r : FlowResponseMsg) : ReqKey :=
  (r.client_id, r.flow_id, r.request_id)

def FlowRequestMsg.reqKey (r : FlowRequestMsg) : ReqKey :=
  (r.client_id, r.flow_id, r.request_id)

def FlowRequestMsg.flowKey (r : FlowRequestMsg) : FlowKey :=
  (r.client_id, r.flow_id)

/-- Predicate matching a `flow_requests` row against a request key. -/
def reqKeyPred (k : ReqKey) (q : FlowRequestRow) : Bool :=
  q.client_id == k.1 && q.flow_id == k.2.1 && q.request_id == k.2.2

/-- Predicate matching a `flow_responses` row against a request key. -/
def respKeyPred (k : ReqKey) (row : FlowResponseRow) : Bool :=
  row.client_id == k.1 && row.flow_id == k.2.1 && row.request_id == k.2.2

/-- Predicate matching a `flow_responses` row against a full response key
(the table's primary key). -/
def respFullKeyPred (r : FlowResponseMsg) (row : FlowResponseRow) : Bool :=
  row.client_id == r.client_id && row.flow_id == r.flow_id &&
    row.request_id == r.request_id && row.response_id == r.response_id

/-- Predicate matching a `flows` row against a flow key. -/
def flowKeyPred (fk : FlowKey) (f : FlowRow) : Bool :=
  f.client_id == fk.1 && f.flow_id == fk.2

/-- Identity of an FPR row: `(client_id, flow_id, creation timestamp)`. -/
def fprKey (r : FlowProcessingRequestRow) : String × String × Micros :=
  (r.client_id, r.flow_id, r.timestamp)

def findRequest (db : DB) (k : ReqKey) : Option FlowRequestRow :=
  db.flow_requests.find? (reqKeyPred k)

def findFlow (db : DB) (fk : FlowKey) : Option FlowRow :=
  db.flows.find? (flowKeyPred fk)

def requestExists (db : DB) (k : ReqKey) : Bool :=
  (findRequest db k).isSome

/-- Number of stored responses for a request key. -/
def respCount (db : DB) (k : ReqKey) : Nat :=
  (db.flow_responses.filter (respKeyPred k)).length

/-- `needs_processing` of the request row at `k` (none if the row is
absent). -/
def reqNeedsProcessing (db : DB) (k : ReqKey) : Option Bool :=
  (findRequest db k).map (·.needs_processing)

/-- `responses_expected` of the request row at `k` (none if the row is
absent or the column is NULL). -/
def reqResponsesExpected (db : DB) (k : ReqKey) : Option Nat :=
  (findRequest db k).bind (·.responses_expected)

/-- The request row at `k` exists and is marked `needs_processing`. -/
def marked (db : DB) (k : ReqKey) : Bool :=
  reqNeedsProcessing db k == some true

/-! ### `_WriteResponses` and `_WriteFlowResponsesAndExpectedUpdates` -/

/-- Net effect of `INSERT IGNORE` of one response row: inserted only when the
referenced request exists (foreign key; the one-by-one retry drops responses
for unknown requests with a log message) and no row with the same primary key
is present (duplicate delivery is silently ignored). -/
def insertResponse (now : Micros) (db : DB) (r : FlowResponseMsg) : DB :=
  if requestExists db r.reqKey && !(db.flow_responses.any (respFullKeyPred r)) then
    { db with flow_responses := db.flow_responses ++
        [{ client_id := r.client_id, flow_id := r.flow_id,
           request_id := r.request_id, response_id := r.response_id,
           payload := r, timestamp := now }] }
  else
    db

/-- `_WriteResponses`: idempotent batch insert of responses. -/
def writeResponses (db : DB) (rs : List FlowResponseMsg) (now : Micros) : DB :=
  rs.foldl (insertResponse now) db

/-- For a `FlowStatus` response, stamp the corresponding request's
`responses_expected` with the status's `response_id` (the source's UPDATE is
unconditional on the previous column value). -/
def stampResponsesExpected (db : DB) (r : FlowResponseMsg) : DB :=
  if r.kind == ResponseKind.status then
    { db with flow_requests := db.flow_requests.map fun q =>
        if reqKeyPred r.reqKey q then
          { q with responses_expected := some r.response_id }
        else q }
  else
    db

/-- `_WriteFlowResponsesAndExpectedUpdates`: write the responses, then stamp
`responses_expected` for every status in the batch. -/
def writeFlowResponsesAndExpectedUpdates (db : DB) (rs : List FlowResponseMsg)
    (now : Micros) : DB :=
  rs.foldl stampResponsesExpected (writeResponses db rs now)

/-! ### `_UpdateRequestsAndScheduleFPRs` and its helpers -/

/-- `_ReadFlowResponseCounts`: per-request response counts, restricted to the
touched keys, joined against request rows that are not yet marked
`needs_processing`; a key appears only if at least one response joins. -/
def responseCounts (db : DB) (keys : List ReqKey) (k : ReqKey) : Option Nat :=
  if k ∈ keys then
    match findRequest db k with
    | some q =>
        if !q.needs_processing && 0 < respCount db k then some (respCount db k)
        else none
    | none => none
  else none

/-- `_ReadAndLockNextRequestsToProcess`: `next_request_to_process` per locked
flow key. -/
def nextRequests (db : DB) (fks : List FlowKey) (fk : FlowKey) : Option Nat :=
  if fk ∈ fks then (findFlow db fk).map (·.next_request_to_process) else none

/-- Condition of the affected-requests SELECT: the key was counted, and the
row's `responses_expected` equals the count or its `callback_state` is
non-empty, and the row is not yet `needs_processing`. -/
def affectedCond (counts : ReqKey → Option Nat) (q : FlowRequestRow) : Bool :=
  match counts (q.client_id, q.flow_id, q.request_id) with
  | some c => (q.responses_expected == some c || q.callback_state != "") &&
      !q.needs_processing
  | none => false

/-- Condition of the callback-agnostic UPDATE that marks requests
`needs_processing`. -/
def markCond (counts : ReqKey → Option Nat) (q : FlowRequestRow) : Bool :=
  match counts (q.client_id, q.flow_id, q.request_id) with
  | some c => q.responses_expected == some c && !q.needs_processing
  | none => false

/-- The affected requests (key and parsed request payload), in table order. -/
def affectedRequests (db : DB) (counts : ReqKey → Option Nat) :
    List (ReqKey × FlowRequestMsg) :=
  (db.flow_requests.filter (affectedCond counts)).map fun q =>
    ((q.client_id, q.flow_id, q.request_id), q.request)

/-- The UPDATE marking completed requests `needs_processing = TRUE`. -/
def markNeedsProcessing (db : DB) (counts : ReqKey → Option Nat) : DB :=
  { db with flow_requests := db.flow_requests.map fun q =>
      if markCond counts q then { q with needs_processing := true } else q }

/-- `_WriteFlowProcessingRequests`: append FPR rows; the `delivery_time`
column is taken from the message. -/
def writeFPRs (db : DB) (reqs : List FlowProcessingRequestMsg) (now : Micros) :
    DB :=
  { db with flow_processing_requests := db.flow_processing_requests ++
      reqs.map fun m =>
        { client_id := m.client_id, flow_id := m.flow_id, request := m,
          delivery_time := m.delivery_time, leased_until := none,
          leased_by := none, timestamp := now } }

/-- The FPR emitted for a ready request, carrying the request's `start_time`
as `delivery_time` when present. -/
def FlowRequestMsg.toFPR (q : FlowRequestMsg) : FlowProcessingRequestMsg :=
  { client_id := q.client_id, flow_id := q.flow_id,
    delivery_time := q.start_time }

/-- `_UpdateRequestsAndScheduleFPRs`: count responses, read the flows'
next-request pointers, select and mark completed requests, and emit one FPR
for every affected request whose id equals its flow's
`next_request_to_process`. -/
def updateRequestsAndScheduleFPRs (db : DB) (rs : List FlowResponseMsg)
    (now : Micros) : DB :=
  let request_keys := rs.map FlowResponseMsg.reqKey
  let flow_keys := rs.map fun r => (r.client_id, r.flow_id)
  let counts := responseCounts db request_keys
  let nexts := nextRequests db flow_keys
  let affected := affectedRequests db counts
  let db2 := markNeedsProcessing db counts
  if affected.isEmpty then db2
  else
    let fprs := affected.filterMap fun kq =>
      if nexts (kq.1.1, kq.1.2.1) == some kq.1.2.2 then some kq.2.toFPR
      else none
    writeFPRs db2 fprs now

/-- One batch of `WriteFlowResponses`: the two sequential transactions. -/
def writeFlowResponsesBatch (db : DB) (rs : List FlowResponseMsg)
    (now : Micros) : DB :=
  updateRequestsAndScheduleFPRs (writeFlowResponsesAndExpectedUpdates db rs now)
    rs now

/-- `WriteFlowResponses`: early return on an empty argument, otherwise the
responses are processed in fixed-size batches. -/
def writeFlowResponses (db : DB) (rs : List FlowResponseMsg) (batchSize : Nat)
    (now : Micros) : DB :=
  if rs.isEmpty then db
  else (rs.toChunks batchSize).foldl
    (fun d batch => writeFlowResponsesBatch d batch now) db

/-! ### `WriteFlowRequests` -/

/-- Domain errors raised by the operations modeled here. -/
inductive FlowDBError
  | unknownFlow
  | flowAlreadyBeingProcessed
  | parentHuntIsNotRunning
  | atLeastOneUnknownFlow
deriving DecidableEq, Repr

/-- The FPRs emitted as a side effect of `WriteFlowRequests`: requests
flagged `needs_processing` are grouped by flow; for each such flow found in
the `flows` table, a candidate request emits an FPR when its id equals the
flow's `next_request_to_process` or its `start_time` is set, carrying the
`start_time` as `delivery_time` when set. -/
def emittedFPRs (db : DB) (rs : List FlowRequestMsg) :
    List FlowProcessingRequestMsg :=
  let npList := rs.filter (·.needs_processing)
  let keys := (npList.map FlowRequestMsg.flowKey).dedup
  keys.flatMap fun fk =>
    match findFlow db fk with
    | none => []
    | some fr =>
        (npList.filter fun r => r.flowKey == fk).filterMap fun r =>
          if fr.next_request_to_process == r.request_id || r.start_time.isSome
          then some { client_id := fk.1, flow_id := fk.2,
                      delivery_time := r.start_time }
          else none

/-- `WriteFlowRequests`: an integrity violation on the batch insert (a
request referencing an unknown flow, or a duplicate request key) aborts the
transaction, surfaced as `AtLeastOneUnknownFlowError`; otherwise the FPR side
effect and the inserted rows commit together. -/
def writeFlowRequests (db : DB) (rs : List FlowRequestMsg) (now : Micros) :
    Except FlowDBError DB :=
  if rs.any (fun r => (findFlow db r.flowKey).isNone)
      || rs.any (fun r => requestExists db r.reqKey)
      || !(decide (rs.map FlowRequestMsg.reqKey).Nodup) then
    Except.error FlowDBError.atLeastOneUnknownFlow
  else
    let db1 := writeFPRs db (emittedFPRs db rs) now
    Except.ok { db1 with flow_requests := db1.flow_requests ++
      (rs.map fun r =>
        { client_id := r.client_id, flow_id := r.flow_id,
          request_id := r.request_id, needs_processing := r.needs_processing,
          callback_state := r.callback_state,
          next_response_id := r.next_response_id, start_time := r.start_time,
          responses_expected := none, request := r }) }

/-! ### `LeaseFlowForProcessing` -/

/-- `_FlowObjectFromRow`: the columns are the source of truth; enum and
counter columns override the payload only when set (truthy), the processing
columns always override (the proto fields are cleared first), and
`parent_hunt_id` overrides only when the column is non-NULL. -/
def rowToFlow (row : FlowRow) : Flow :=
  { client_id := row.client_id
    flow_id := row.flow_id
    flow_state :=
      if row.flow_state == FlowState.unset then row.flow.flow_state
      else row.flow_state
    next_request_to_process :=
      if row.next_request_to_process == 0 then row.flow.next_request_to_process
      else row.next_request_to_process
    processing_on := row.processing_on
    processing_since := row.processing_since
    processing_deadline := row.processing_deadline
    parent_hunt_id :=
      if row.parent_hunt_id.isSome then row.parent_hunt_id
      else row.flow.parent_hunt_id
    user_cpu_time_used_micros := row.user_cpu_time_used_micros
    system_cpu_time_used_micros := row.system_cpu_time_used_micros
    network_bytes_sent := row.network_bytes_sent
    num_replies_sent :=
      if row.num_replies_sent == 0 then row.flow.num_replies_sent
      else row.num_replies_sent }

/-- Truthiness of the proto string field `processing_on`. -/
def processingOnSet (o : Option String) : Bool :=
  match o with
  | none => false
  | some s => !(s == "")

/-- The parent-hunt gate: blocked only when the flow has a parent hunt, the
hunt row exists, its `hunt_state` is non-NULL and the suitability predicate
(an external collaborator) rejects it. -/
def huntBlocked (db : DB) (flow : Flow) (suitable : Nat → Bool) : Bool :=
  match flow.parent_hunt_id with
  | none => false
  | some h =>
      match db.hunts.find? (fun hr => hr.1 == h) with
      | none => false
      | some hr =>
          match hr.2 with
          | none => false
          | some st => !suitable st

/-- `LeaseFlowForProcessing`.  Checks, in order: flow existence, an unexpired
lease held by another worker, and the parent hunt's suitability; on success
stamps `processing_on`/`processing_since`/`processing_deadline` and returns
the up-to-date flow.  On error the transaction leaves the state unchanged. -/
def leaseFlowForProcessing (db : DB) (client_id flow_id : String)
    (processing_time : Micros) (now : Micros) (worker : String)
    (suitable : Nat → Bool) : Except FlowDBError Flow × DB :=
  match findFlow db (client_id, flow_id) with
  | none => (Except.error FlowDBError.unknownFlow, db)
  | some row =>
      let flow := rowToFlow row
      if processingOnSet flow.processing_on &&
          now < flow.processing_deadline.getD 0 then
        (Except.error FlowDBError.flowAlreadyBeingProcessed, db)
      else if huntBlocked db flow suitable then
        (Except.error FlowDBError.parentHuntIsNotRunning, db)
      else
        let deadline := now + processing_time
        let db' := { db with flows := db.flows.map (fun fr =>
          if flowKeyPred (client_id, flow_id) fr then
            { fr with
              processing_on := some worker,
              processing_since := some now,
              processing_deadline := some deadline }
          else fr) }
        (Except.ok { flow with
            processing_on := some worker,
            processing_since := some now,
            processing_deadline := some deadline }, db')

/-! ### `ReleaseProcessedFlow` -/

/-- The correlated subquery of `ReleaseProcessedFlow`'s guarded update: a
request at the flow's new `next_request_to_process` that is marked
`needs_processing` and whose `start_time` is NULL or already passed. -/
def blockingRequest (db : DB) (f : Flow) (now : Micros) : Bool :=
  db.flow_requests.any fun q =>
    q.client_id == f.client_id && q.flow_id == f.flow_id &&
      q.request_id == f.next_request_to_process &&
      (q.start_time.isNone || q.start_time.getD 0 < now) &&
      q.needs_processing

/-- The flow payload stored on release: the worker's flow object with the
processing fields cleared. -/
def Flow.clearProcessing (f : Flow) : Flow :=
  { f with
    processing_on := none, processing_since := none,
    processing_deadline := none }

/-- `ReleaseProcessedFlow`: a single conditional atomic update; returns
whether exactly one row was updated. -/
def releaseProcessedFlow (db : DB) (f : Flow) (now : Micros) : Bool × DB :=
  if blockingRequest db f now then (false, db)
  else
    let matched := db.flows.countP (flowKeyPred (f.client_id, f.flow_id))
    let clone := f.clearProcessing
    let db' := { db with flows := db.flows.map (fun fr =>
      if flowKeyPred (f.client_id, f.flow_id) fr then
        { fr with
          flow := clone, processing_on := none,
          processing_since := none, processing_deadline := none,
          next_request_to_process := f.next_request_to_process,
          flow_state := f.flow_state,
          user_cpu_time_used_micros := f.user_cpu_time_used_micros,
          system_cpu_time_used_micros := f.system_cpu_time_used_micros,
          network_bytes_sent := f.network_bytes_sent,
          num_replies_sent := f.num_replies_sent }
      else fr) }
    (matched == 1, db')

/-! ### The leased queue primitive (`_LeaseFlowProcessingRequests`,
`_LeaseMessageHandlerRequests`) -/

/-- `UPDATE ... SET lease stamp ... WHERE eligible LIMIT limit`: walks the
table in order, stamping eligible rows until the limit is exhausted; returns
the number of stamped rows and the updated table. -/
def stampTake {α : Type} (elig : α → Bool) (stamp : α → α) :
    Nat → List α → Nat × List α
  | _, [] => (0, [])
  | 0, rows => (0, rows)
  | limit + 1, row :: rest =>
      if elig row then
        let p := stampTake elig stamp limit rest
        (p.1 + 1, stamp row :: p.2)
      else
        let p := stampTake elig stamp (limit + 1) rest
        (p.1, row :: p.2)

/-- The fixed lease window of the FPR queue: 10 minutes, in microseconds. -/
def fprLeaseWindow : Micros := 600000000

/-- Eligibility of an FPR row for leasing: `delivery_time` absent or passed,
and lease absent or expired. -/
def fprEligible (now : Micros) (row : FlowProcessingRequestRow) : Bool :=
  (row.delivery_time.isNone || row.delivery_time.getD 0 ≤ now) &&
    (row.leased_until.isNone || row.leased_until.getD 0 < now)

def fprStamp (expiry : Micros) (token : String)
    (row : FlowProcessingRequestRow) : FlowProcessingRequestRow :=
  { row with leased_until := some expiry, leased_by := some token }

/-- `_LeaseFlowProcessingRequests`: stamp up to `limit` eligible rows with
`leased_until = now + window` and the worker token, then re-select exactly
the rows carrying that token and that lease stamp. -/
def leaseFlowProcessingRequests (db : DB) (limit : Nat) (now : Micros)
    (token : String) : List FlowProcessingRequestRow × DB :=
  let expiry := now + fprLeaseWindow
  let p := stampTake (fprEligible now) (fprStamp expiry token) limit
    db.flow_processing_requests
  let db' := { db with flow_processing_requests := p.2 }
  if p.1 == 0 then ([], db')
  else
    (((p.2.filter fun row =>
        row.leased_by == some token && row.leased_until == some expiry).take
      p.1), db')

/-- Eligibility of a message handler request row: lease absent or expired
(this queue has no `delivery_time`). -/
def mhEligible (now : Micros) (row : MessageHandlerRequestRow) : Bool :=
  row.leased_until.isNone || row.leased_until.getD 0 < now

def mhStamp (expiry : Micros) (token : String)
    (row : MessageHandlerRequestRow) : MessageHandlerRequestRow :=
  { row with leased_until := some expiry, leased_by := some token }

/-- `_LeaseMessageHandlerRequests`: same leasing mechanics with a
caller-supplied lease window. -/
def leaseMessageHandlerRequests (db : DB) (lease_time : Micros) (limit : Nat)
    (now : Micros) (token : String) : List MessageHandlerRequestRow × DB :=
  let expiry := now + lease_time
  let p := stampTake (mhEligible now) (mhStamp expiry token) limit
    db.message_handler_requests
  let db' := { db with message_handler_requests := p.2 }
  if p.1 == 0 then ([], db')
  else
    (((p.2.filter fun row =>
        row.leased_by == some token && row.leased_until == some expiry).take
      p.1), db')

/-! ### `UpdateIncrementalFlowRequests`, `DeleteFlowRequests`,
`AckFlowProcessingRequests` -/

/-- `UpdateIncrementalFlowRequests`: per-request `next_response_id` cursor
updates; early return on an empty mapping. -/
def updateIncrementalFlowRequests (db : DB) (client_id flow_id : String)
    (updates : List (Nat × Nat)) : DB :=
  if updates.isEmpty then db
  else updates.foldl (fun d u =>
    { d with flow_requests := d.flow_requests.map fun q =>
        if q.client_id == client_id && q.flow_id == flow_id &&
            q.request_id == u.1 then
          { q with next_response_id := u.2 }
        else q }) db

/-- `DeleteFlowRequests`: early return on an empty argument; deletes, batch
by batch, the responses then the requests of every given key. -/
def deleteFlowRequests (db : DB) (rs : List FlowRequestMsg) (batchSize : Nat) :
    DB :=
  if rs.isEmpty then db
  else (rs.toChunks batchSize).foldl (fun d batch =>
    let keys := batch.map FlowRequestMsg.reqKey
    { d with
      flow_responses := d.flow_responses.filter fun row =>
        !(keys.contains (row.client_id, row.flow_id, row.request_id)),
      flow_requests := d.flow_requests.filter fun q =>
        !(keys.contains (q.client_id, q.flow_id, q.request_id)) }) db

/-- `AckFlowProcessingRequests`: early return on an empty argument; deletes
FPR rows by exact `(client_id, flow_id, creation timestamp)` match. -/
def ackFlowProcessingRequests (db : DB)
    (rs : List FlowProcessingRequestRow) : DB :=
  if rs.isEmpty then db
  else
    let keys := rs.map fun r => (r.client_id, r.flow_id, r.timestamp)
    { db with flow_processing_requests :=
        db.flow_processing_requests.filter fun row =>
          !(keys.contains (row.client_id, row.flow_id, row.timestamp)) }

/-! ### Call sequences and claim-level definitions -/

/-- One public `WriteFlowResponses` call: its batch of responses and the time
at which it runs. -/
structure WriteCall where
  responses : List FlowResponseMsg
  now : Micros
deriving DecidableEq, Repr

/-- Run a sequence of `WriteFlowResponses` calls. -/
def runCalls (db : DB) (batchSize : Nat) : List WriteCall → DB
  | [] => db
  | c :: rest =>
      runCalls (writeFlowResponses db c.responses batchSize c.now) batchSize
        rest

/-- How many of the calls flip the request at `k` from not-`needs_processing`
to `needs_processing`. -/
def transitionCount (db : DB) (batchSize : Nat) (k : ReqKey) :
    List WriteCall → Nat
  | [] => 0
  | c :: rest =>
      let db' := writeFlowResponses db c.responses batchSize c.now
      (if !marked db k && marked db' k then 1 else 0) +
        transitionCount db' batchSize k rest

/-- Completion invariant for a request key: whenever `responses_expected` is
set to `N ≥ 1` and exactly `N` responses are stored, the request is marked
`needs_processing`. -/
def CompletionInv (k : ReqKey) (db : DB) : Prop :=
  ∀ N, reqResponsesExpected db k = some N → respCount db k = N → 1 ≤ N →
    marked db k = true

/-- The release guard as the spec words it (with the start-time
qualification): some request sits at the flow's `next_request_to_process`,
is marked `needs_processing`, and its start time is absent or passed. -/
def SpecBlockingRequest (db : DB) (f : Flow) (now : Micros) : Prop :=
  ∃ q ∈ db.flow_requests, q.client_id = f.client_id ∧
    q.flow_id = f.flow_id ∧ q.request_id = f.next_request_to_process ∧
    (q.start_time = none ∨ q.start_time.getD 0 < now) ∧
    q.needs_processing = true

/-- Number of FPR rows after a fallible operation (`none` when the operation
failed). -/
def fprCountAfter (e : Except FlowDBError DB) : Option Nat :=
  match e with
  | Except.ok d => some d.flow_processing_requests.length
  | Except.error _ => none

/-- The request key stored in a `flow_requests` row (the table's primary
key). -/
def FlowRequestRow.rkey (q : FlowRequestRow) : ReqKey :=
  (q.client_id, q.flow_id, q.request_id)

/-- A request row with its two completion-tracking columns blanked.
`WriteFlowResponses` only ever changes `needs_processing` and
`responses_expected` of a request row; this is stated below as preservation
of the scaffold. -/
def FlowRequestRow.scaffold (q : FlowRequestRow) : FlowRequestRow :=
  { q with needs_processing := false, responses_expected := none }

/-- Number of FPR rows stored for a flow. -/
def fprsFor (db : DB) (fk : FlowKey) : Nat :=
  (db.flow_processing_requests.filter fun row =>
    row.client_id == fk.1 && row.flow_id == fk.2).length

/-- The FPR messages scheduled by one completion-detection step (the
`filterMap` inside `updateRequestsAndScheduleFPRs`, named so it can be
analysed). -/
def batchFPRs (db : DB) (rs : List FlowResponseMsg) :
    List FlowProcessingRequestMsg :=
  (affectedRequests db
      (responseCounts db (rs.map FlowResponseMsg.reqKey))).filterMap
    fun kq =>
      if nextRequests db (rs.map fun r => (r.client_id, r.flow_id))
          (kq.1.1, kq.1.2.1) == some kq.1.2.2 then
        some kq.2.toFPR
      else none

/-- Identity of a message handler request row:
`(handler_name, request_id, creation timestamp)`. -/
def mhKey (r : MessageHandlerRequestRow) : String × Nat × Micros :=
  (r.handler_name, r.request_id, r.timestamp)

/-- The standing state assumptions of the FPR-scheduling argument for one
flow: request primary keys are unique, every request of the flow is
callback-free (incremental callback requests re-fire by design and are
outside per-transition accounting), the serialized request payload agrees
with the row's key columns (as written by `WriteFlowRequests`), and the
flow row exists. -/
def GoodFor (fk : FlowKey) (fr : FlowRow) (db : DB) : Prop :=
  (db.flow_requests.map FlowRequestRow.rkey).Nodup ∧
  (∀ q ∈ db.flow_requests, (q.client_id, q.flow_id) = fk →
    q.callback_state = "") ∧
  (∀ q ∈ db.flow_requests, q.request.client_id = q.client_id ∧
    q.request.flow_id = q.flow_id) ∧
  findFlow db fk = some fr

/-! ### Concrete sample data used by scenario theorems and witnesses -/

namespace Ex

def baseFlow : Flow :=
  { client_id := "C1", flow_id := "F1", flow_state := FlowState.running,
    next_request_to_process := 3, processing_on := none,
    processing_since := none, processing_deadline := none,
    parent_hunt_id := none, user_cpu_time_used_micros := 0,
    system_cpu_time_used_micros := 0, network_bytes_sent := 0,
    num_replies_sent := 0 }

def baseFlowRow : FlowRow :=
  { client_id := "C1", flow_id := "F1", flow := baseFlow,
    flow_state := FlowState.running, next_request_to_process := 3,
    processing_on := none, processing_since := none,
    processing_deadline := none, parent_hunt_id := none,
    user_cpu_time_used_micros := 0, system_cpu_time_used_micros := 0,
    network_bytes_sent := 0, num_replies_sent := 0 }

def reqMsg3 : FlowRequestMsg :=
  { client_id := "C1", flow_id := "F1", request_id := 3,
    needs_processing := false, callback_state := "", next_response_id := 0,
    start_time := none }

def reqRow3 : FlowRequestRow :=
  { client_id := "C1", flow_id := "F1", request_id := 3,
    needs_processing := false, callback_state := "", next_response_id := 0,
    start_time := none, responses_expected := none, request := reqMsg3 }

/-- A database with one flow (`next_request_to_process = 3`) and one pending
request with id 3. -/
def db0 : DB :=
  { flows := [baseFlowRow], flow_requests := [reqRow3], flow_responses := [],
    flow_processing_requests := [], message_handler_requests := [],
    hunts := [] }

/-- Data response 1 of 2 for request 3. -/
def resp1 : FlowResponseMsg :=
  { kind := ResponseKind.response, client_id := "C1", flow_id := "F1",
    request_id := 3, response_id := 1 }

/-- The status response (2 of 2) for request 3: stamps
`responses_expected = 2`. -/
def stat2 : FlowResponseMsg :=
  { kind := ResponseKind.status, client_id := "C1", flow_id := "F1",
    request_id := 3, response_id := 2 }

/-- A different status for request 3, carrying `response_id = 5`. -/
def stat5 : FlowResponseMsg :=
  { kind := ResponseKind.status, client_id := "C1", flow_id := "F1",
    request_id := 3, response_id := 5 }

def db1 : DB := writeFlowResponses db0 [resp1] 100 10

def db2 : DB := writeFlowResponses db1 [stat2] 100 20

/-- A request that carries a start time but is not flagged
`needs_processing`. -/
def reqMsg9 : FlowRequestMsg :=
  { client_id := "C1", flow_id := "F1", request_id := 9,
    needs_processing := false, callback_state := "", next_response_id := 0,
    start_time := some 500 }

/-- The same request flagged `needs_processing`. -/
def reqMsg9np : FlowRequestMsg := { reqMsg9 with needs_processing := true }

/-- The state after writing the flagged request `reqMsg9np` at time 50
(`writeFlowRequests` succeeds here, so the fallback arm is never taken). -/
def db8 : DB :=
  match writeFlowRequests db0 [reqMsg9np] 50 with
  | Except.ok d => d
  | Except.error _ => db0

/-- Request row 3 marked `needs_processing` with a start time still in the
future at time 20. -/
def reqRow3Future : FlowRequestRow :=
  { reqRow3 with needs_processing := true, start_time := some 1000 }

/-- Request row 3 marked `needs_processing` with no start time. -/
def reqRow3Ready : FlowRequestRow :=
  { reqRow3 with needs_processing := true, start_time := none }

def leasedFlowRow : FlowRow :=
  { baseFlowRow with
    processing_on := some "w1", processing_since := some 5,
    processing_deadline := some 50 }

/-- Flow leased until 50; the request at `next_request_to_process` is marked
`needs_processing` but has a future start time. -/
def dbRelFuture : DB :=
  { db0 with flows := [leasedFlowRow], flow_requests := [reqRow3Future] }

/-- Flow leased until 50; the request at `next_request_to_process` is marked
`needs_processing` with no start time. -/
def dbRelReady : DB :=
  { db0 with flows := [leasedFlowRow], flow_requests := [reqRow3Ready] }

/-- A database whose single flow holds an unexpired lease. -/
def dbLeased : DB := { db0 with flows := [leasedFlowRow] }

def huntFlowRow : FlowRow := { baseFlowRow with parent_hunt_id := some "H1" }

/-- A database whose single flow belongs to hunt H1 with `hunt_state = 7`. -/
def dbHunt : DB :=
  { db0 with flows := [huntFlowRow], hunts := [("H1", some 7)] }

/-- The hunt flow row, additionally holding an unexpired lease. -/
def huntLeasedRow : FlowRow :=
  { huntFlowRow with
    processing_on := some "w1",
    processing_deadline := some 50 }

/-- The hunt flow, additionally holding an unexpired lease. -/
def dbHuntLeased : DB := { dbHunt with flows := [huntLeasedRow] }

/-- A suitability predicate that rejects hunt state 7. -/
def rejectState7 : Nat → Bool := fun st => !(st == 7)

def fprRow1 : FlowProcessingRequestRow :=
  { client_id := "C1", flow_id := "F1",
    request := { client_id := "C1", flow_id := "F1", delivery_time := none },
    delivery_time := none, leased_until := none, leased_by := none,
    timestamp := 1 }

def fprRow2 : FlowProcessingRequestRow := { fprRow1 with timestamp := 2 }

/-- An FPR row whose `delivery_time` is still in the future at time 100. -/
def fprRow3 : FlowProcessingRequestRow :=
  { fprRow1 with timestamp := 3, delivery_time := some 1000000 }

/-- A queue with two eligible rows and one not-yet-deliverable row at time
100. -/
def dbQueue : DB := { db0 with flow_processing_requests := [fprRow1, fprRow2, fprRow3] }

def mhRow1 : MessageHandlerRequestRow :=
  { handler_name := "h", request_id := 1, leased_until := none,
    leased_by := none, timestamp := 1 }

def dbMH : DB := { db0 with message_handler_requests := [mhRow1] }

end Ex

/-! ## Frame and projection lemmas -/

theorem insertResponse_flow_requests (now : Micros) (db : DB)
    (r : FlowResponseMsg) :
    (insertResponse now db r).flow_requests = db.flow_requests := by
  unfold insertResponse
  split <;> rfl

theorem writeResponses_cons (db : DB) (r : FlowResponseMsg)
    (t : List FlowResponseMsg) (now : Micros) :
    writeResponses db (r :: t) now = writeResponses (insertResponse now db r) t now :=
  rfl

theorem writeResponses_flow_requests (rs : List FlowResponseMsg) (db : DB)
    (now : Micros) :
    (writeResponses db rs now).flow_requests = db.flow_requests := by
  induction rs generalizing db with
  | nil => rfl
  | cons r t ih =>
      rw [writeResponses_cons, ih, insertResponse_flow_requests]

theorem stampResponsesExpected_flow_responses (db : DB)
    (r : FlowResponseMsg) :
    (stampResponsesExpected db r).flow_responses = db.flow_responses := by
  unfold stampResponsesExpected
  split <;> rfl

theorem stampFold_flow_responses (rs : List FlowResponseMsg) (db : DB) :
    (rs.foldl stampResponsesExpected db).flow_responses = db.flow_responses := by
  induction rs generalizing db with
  | nil => rfl
  | cons r t ih =>
      rw [List.foldl_cons, ih, stampResponsesExpected_flow_responses]

theorem markNeedsProcessing_flow_responses (db : DB)
    (counts : ReqKey → Option Nat) :
    (markNeedsProcessing db counts).flow_responses = db.flow_responses := rfl

theorem writeFPRs_flow_requests (db : DB)
    (reqs : List FlowProcessingRequestMsg) (now : Micros) :
    (writeFPRs db reqs now).flow_requests = db.flow_requests := rfl

theorem writeFPRs_flow_responses (db : DB)
    (reqs : List FlowProcessingRequestMsg) (now : Micros) :
    (writeFPRs db reqs now).flow_responses = db.flow_responses := rfl

theorem update_flow_requests (db : DB) (rs : List FlowResponseMsg)
    (now : Micros) :
    (updateRequestsAndScheduleFPRs db rs now).flow_requests =
      (markNeedsProcessing db
        (responseCounts db (rs.map FlowResponseMsg.reqKey))).flow_requests := by
  simp only [updateRequestsAndScheduleFPRs]
  split <;> rfl

theorem update_flow_responses (db : DB) (rs : List FlowResponseMsg)
    (now : Micros) :
    (updateRequestsAndScheduleFPRs db rs now).flow_responses =
      db.flow_responses := by
  simp only [updateRequestsAndScheduleFPRs]
  split <;> rfl

theorem findRequest_congr {db1 db2 : DB}
    (h : db1.flow_requests = db2.flow_requests) (k : ReqKey) :
    findRequest db1 k = findRequest db2 k := by
  unfold findRequest
  rw [h]

theorem respCount_congr {db1 db2 : DB}
    (h : db1.flow_responses = db2.flow_responses) (k : ReqKey) :
    respCount db1 k = respCount db2 k := by
  unfold respCount
  rw [h]

/-! ## `find?` through key-preserving maps -/

theorem find?_map_key {α : Type} (f : α → α) (p : α → Bool)
    (hp : ∀ a, p (f a) = p a) (l : List α) :
    (l.map f).find? p = (l.find? p).map f := by
  induction l with
  | nil => rfl
  | cons a t ih =>
      cases h : p a with
      | true =>
          rw [List.map_cons, List.find?_cons_of_pos _ (by rw [hp]; exact h),
            List.find?_cons_of_pos _ h]
          rfl
      | false =>
          rw [List.map_cons, List.find?_cons_of_neg _ (by simp [hp a, h]),
            List.find?_cons_of_neg _ (by simp [h]), ih]

theorem findRequest_map (db : DB) (f : FlowRequestRow → FlowRequestRow)
    (k : ReqKey) (hf : ∀ q, reqKeyPred k (f q) = reqKeyPred k q) :
    findRequest { db with flow_requests := db.flow_requests.map f } k =
      (findRequest db k).map f :=
  find?_map_key f (reqKeyPred k) hf db.flow_requests

theorem reqKeyPred_iff (k : ReqKey) (q : FlowRequestRow) :
    reqKeyPred k q = true ↔ (q.client_id, q.flow_id, q.request_id) = k := by
  simp [reqKeyPred, Prod.ext_iff, and_assoc]

/-! ## Effect of the expectation stamp on request fields -/

theorem reqNeedsProcessing_stamp (db : DB) (r : FlowResponseMsg)
    (k : ReqKey) :
    reqNeedsProcessing (stampResponsesExpected db r) k =
      reqNeedsProcessing db k := by
  unfold stampResponsesExpected
  split
  · unfold reqNeedsProcessing
    rw [findRequest_map db _ k (by intro q; split <;> rfl)]
    cases findRequest db k with
    | none => rfl
    | some q =>
        by_cases hp : reqKeyPred r.reqKey q = true <;> simp [hp]
  · rfl

theorem marked_stamp (db : DB) (r : FlowResponseMsg) (k : ReqKey) :
    marked (stampResponsesExpected db r) k = marked db k := by
  unfold marked
  rw [reqNeedsProcessing_stamp]

theorem marked_stampFold (rs : List FlowResponseMsg) (db : DB) (k : ReqKey) :
    marked (rs.foldl stampResponsesExpected db) k = marked db k := by
  induction rs generalizing db with
  | nil => rfl
  | cons r t ih =>
      rw [List.foldl_cons, ih, marked_stamp]

theorem reqResponsesExpected_stamp_ne (db : DB) (r : FlowResponseMsg)
    (k : ReqKey) (h : r.reqKey ≠ k ∨ r.kind ≠ ResponseKind.status) :
    reqResponsesExpected (stampResponsesExpected db r) k =
      reqResponsesExpected db k := by
  unfold stampResponsesExpected
  split
  · rename_i hst
    unfold reqResponsesExpected
    rw [findRequest_map db _ k (by intro q; split <;> rfl)]
    cases hq : findRequest db k with
    | none => rfl
    | some q =>
        have hkey : (q.client_id, q.flow_id, q.request_id) = k :=
          (reqKeyPred_iff k q).mp (List.find?_some hq)
        have hne : r.reqKey ≠ k := by
          rcases h with h | h
          · exact h
          · exact absurd (by simpa using hst) h
        have hp : reqKeyPred r.reqKey q = false := by
          cases hp : reqKeyPred r.reqKey q
          · rfl
          · exact absurd (((reqKeyPred_iff r.reqKey q).mp hp).symm.trans hkey)
              hne
        simp [hp]
  · rfl

theorem reqResponsesExpected_stamp_self (db : DB) (r : FlowResponseMsg)
    (hst : r.kind = ResponseKind.status) (q : FlowRequestRow)
    (hq : findRequest db r.reqKey = some q) :
    reqResponsesExpected (stampResponsesExpected db r) r.reqKey =
      some r.response_id := by
  unfold stampResponsesExpected
  rw [if_pos (by simp [hst])]
  unfold reqResponsesExpected
  rw [findRequest_map db _ r.reqKey (by intro q'; split <;> rfl), hq]
  simp [List.find?_some hq]

/-! ## Effect of the completion-marking update on request fields -/

theorem findRequest_mark (db : DB) (counts : ReqKey → Option Nat)
    (k : ReqKey) :
    findRequest (markNeedsProcessing db counts) k =
      (findRequest db k).map fun q =>
        if markCond counts q then { q with needs_processing := true }
        else q :=
  findRequest_map db _ k (by intro q; split <;> rfl)

theorem reqResponsesExpected_mark (db : DB) (counts : ReqKey → Option Nat)
    (k : ReqKey) :
    reqResponsesExpected (markNeedsProcessing db counts) k =
      reqResponsesExpected db k := by
  unfold reqResponsesExpected
  rw [findRequest_mark]
  cases findRequest db k with
  | none => rfl
  | some q =>
      by_cases hc : markCond counts q = true <;> simp [hc]

/-- The marking update turns `needs_processing` into the disjunction of its
old value with the mark condition. -/
theorem reqNeedsProcessing_mark (db : DB) (counts : ReqKey → Option Nat)
    (k : ReqKey) :
    reqNeedsProcessing (markNeedsProcessing db counts) k =
      (findRequest db k).map fun q =>
        markCond counts q || q.needs_processing := by
  unfold reqNeedsProcessing
  rw [findRequest_mark]
  cases findRequest db k with
  | none => rfl
  | some q =>
      by_cases hc : markCond counts q = true <;> simp [hc]

theorem marked_iff (db : DB) (k : ReqKey) :
    marked db k = true ↔
      ∃ q, findRequest db k = some q ∧ q.needs_processing = true := by
  unfold marked reqNeedsProcessing
  cases h : findRequest db k <;> simp [h]

theorem marked_mark_of_marked (db : DB) (counts : ReqKey → Option Nat)
    (k : ReqKey) (h : marked db k = true) :
    marked (markNeedsProcessing db counts) k = true := by
  rcases (marked_iff db k).mp h with ⟨q, hq, hnp⟩
  unfold marked
  rw [reqNeedsProcessing_mark, hq]
  simp [hnp]

theorem marked_mark_of_none (db : DB) (counts : ReqKey → Option Nat)
    (k : ReqKey) (h : counts k = none) :
    marked (markNeedsProcessing db counts) k = marked db k := by
  unfold marked
  rw [reqNeedsProcessing_mark]
  cases hq : findRequest db k with
  | none => unfold reqNeedsProcessing; rw [hq]; rfl
  | some q =>
      have hkey : (q.client_id, q.flow_id, q.request_id) = k :=
        (reqKeyPred_iff k q).mp (List.find?_some hq)
      have hc : markCond counts q = false := by
        unfold markCond
        rw [hkey, h]
      unfold reqNeedsProcessing
      rw [hq]
      simp [hc]

theorem marked_mark_of_cond (db : DB) (counts : ReqKey → Option Nat)
    (k : ReqKey) (q : FlowRequestRow) (hq : findRequest db k = some q)
    (hc : markCond counts q = true) :
    marked (markNeedsProcessing db counts) k = true := by
  unfold marked
  rw [reqNeedsProcessing_mark, hq]
  simp [hc]

/-! ## Congruence helpers and batch-level projections -/

theorem marked_congr {db1 db2 : DB}
    (h : db1.flow_requests = db2.flow_requests) (k : ReqKey) :
    marked db1 k = marked db2 k := by
  unfold marked reqNeedsProcessing
  rw [findRequest_congr h]

theorem reqResponsesExpected_congr {db1 db2 : DB}
    (h : db1.flow_requests = db2.flow_requests) (k : ReqKey) :
    reqResponsesExpected db1 k = reqResponsesExpected db2 k := by
  unfold reqResponsesExpected
  rw [findRequest_congr h]

theorem respKeyPred_iff (k : ReqKey) (row : FlowResponseRow) :
    respKeyPred k row = true ↔
      (row.client_id, row.flow_id, row.request_id) = k := by
  simp [respKeyPred, Prod.ext_iff, and_assoc]

theorem respCount_insert_ne (now : Micros) (db : DB) (r : FlowResponseMsg)
    (k : ReqKey) (h : r.reqKey ≠ k) :
    respCount (insertResponse now db r) k = respCount db k := by
  unfold insertResponse
  split
  · unfold respCount
    dsimp only
    rw [List.filter_append]
    have hpred : respKeyPred k
        { client_id := r.client_id, flow_id := r.flow_id,
          request_id := r.request_id, response_id := r.response_id,
          payload := r, timestamp := now } = false := by
      cases hp : respKeyPred k
          { client_id := r.client_id, flow_id := r.flow_id,
            request_id := r.request_id, response_id := r.response_id,
            payload := r, timestamp := now }
      · rfl
      · exact absurd ((respKeyPred_iff k _).mp hp) h
    simp [hpred]
  · rfl

theorem respCount_writeResponses_ne (rs : List FlowResponseMsg) (db : DB)
    (now : Micros) (k : ReqKey) (h : ∀ r ∈ rs, r.reqKey ≠ k) :
    respCount (writeResponses db rs now) k = respCount db k := by
  induction rs generalizing db with
  | nil => rfl
  | cons r t ih =>
      rw [writeResponses_cons, ih _ (fun x hx => h x (List.mem_cons_of_mem r hx)),
        respCount_insert_ne now db r k (h r (List.mem_cons_self r t))]

theorem reqResponsesExpected_stampFold_ne (rs : List FlowResponseMsg)
    (db : DB) (k : ReqKey)
    (h : ∀ r ∈ rs, r.kind = ResponseKind.status → r.reqKey ≠ k) :
    reqResponsesExpected (rs.foldl stampResponsesExpected db) k =
      reqResponsesExpected db k := by
  induction rs generalizing db with
  | nil => rfl
  | cons r t ih =>
      rw [List.foldl_cons,
        ih _ (fun x hx => h x (List.mem_cons_of_mem r hx))]
      by_cases hst : r.kind = ResponseKind.status
      · exact reqResponsesExpected_stamp_ne db r k
          (Or.inl (h r (List.mem_cons_self r t) hst))
      · exact reqResponsesExpected_stamp_ne db r k (Or.inr hst)

theorem batch_flow_responses (db : DB) (rs : List FlowResponseMsg)
    (now : Micros) :
    (writeFlowResponsesBatch db rs now).flow_responses =
      (writeResponses db rs now).flow_responses := by
  unfold writeFlowResponsesBatch writeFlowResponsesAndExpectedUpdates
  rw [update_flow_responses, stampFold_flow_responses]

theorem marked_writeExpected (db : DB) (rs : List FlowResponseMsg)
    (now : Micros) (k : ReqKey) :
    marked (writeFlowResponsesAndExpectedUpdates db rs now) k =
      marked db k := by
  unfold writeFlowResponsesAndExpectedUpdates
  rw [marked_stampFold, marked_congr (writeResponses_flow_requests rs db now)]

theorem marked_batch_mono (db : DB) (rs : List FlowResponseMsg)
    (now : Micros) (k : ReqKey) (h : marked db k = true) :
    marked (writeFlowResponsesBatch db rs now) k = true := by
  unfold writeFlowResponsesBatch
  rw [marked_congr (update_flow_requests _ rs now) k]
  refine marked_mark_of_marked _ _ k ?_
  rw [marked_writeExpected]
  exact h

/-! ## Preservation of the completion invariant by one batch -/

theorem completionInv_batch (k : ReqKey) (db : DB)
    (rs : List FlowResponseMsg) (now : Micros) (h : CompletionInv k db) :
    CompletionInv k (writeFlowResponsesBatch db rs now) := by
  intro N hexp hcnt hN
  by_cases hk : k ∈ rs.map FlowResponseMsg.reqKey
  · -- the batch touches `k`: the marking update fires in this very batch
    have hexp1 : reqResponsesExpected
        (writeFlowResponsesAndExpectedUpdates db rs now) k = some N := by
      rw [← hexp]
      unfold writeFlowResponsesBatch
      rw [reqResponsesExpected_congr (update_flow_requests _ rs now) k,
        reqResponsesExpected_mark]
    have hcnt1 : respCount
        (writeFlowResponsesAndExpectedUpdates db rs now) k = N := by
      rw [← hcnt]
      refine (respCount_congr ?_ k).symm
      rw [batch_flow_responses]
      unfold writeFlowResponsesAndExpectedUpdates
      rw [stampFold_flow_responses]
    cases hm1 : marked (writeFlowResponsesAndExpectedUpdates db rs now) k with
    | true =>
        unfold writeFlowResponsesBatch
        rw [marked_congr (update_flow_requests _ rs now) k]
        exact marked_mark_of_marked _ _ k hm1
    | false =>
        obtain ⟨q, hq⟩ : ∃ q, findRequest
            (writeFlowResponsesAndExpectedUpdates db rs now) k = some q := by
          unfold reqResponsesExpected at hexp1
          cases hfq : findRequest
              (writeFlowResponsesAndExpectedUpdates db rs now) k
          · rw [hfq] at hexp1
            exact absurd hexp1 (by simp)
          · exact ⟨_, rfl⟩
        have hqe : q.responses_expected = some N := by
          unfold reqResponsesExpected at hexp1
          rw [hq] at hexp1
          exact hexp1
        have hqn : q.needs_processing = false := by
          unfold marked reqNeedsProcessing at hm1
          rw [hq] at hm1
          simpa using hm1
        have hkey : (q.client_id, q.flow_id, q.request_id) = k :=
          (reqKeyPred_iff k q).mp (List.find?_some hq)
        have hcounts : responseCounts
            (writeFlowResponsesAndExpectedUpdates db rs now)
            (rs.map FlowResponseMsg.reqKey) k = some N := by
          unfold responseCounts
          rw [if_pos hk, hq]
          dsimp only
          rw [hqn, hcnt1]
          simp [Nat.lt_of_lt_of_le Nat.zero_lt_one hN]
        have hcond : markCond (responseCounts
            (writeFlowResponsesAndExpectedUpdates db rs now)
            (rs.map FlowResponseMsg.reqKey)) q = true := by
          unfold markCond
          rw [hkey, hcounts]
          simp [hqe, hqn]
        unfold writeFlowResponsesBatch
        rw [marked_congr (update_flow_requests _ rs now) k]
        exact marked_mark_of_cond _ _ k q hq hcond
  · -- the batch does not touch `k`: every observation is preserved
    have hnot : ∀ r ∈ rs, r.reqKey ≠ k := by
      intro r hr hcontra
      exact hk (hcontra ▸ List.mem_map_of_mem FlowResponseMsg.reqKey hr)
    have hexp0 : reqResponsesExpected db k = some N := by
      rw [← hexp]
      unfold writeFlowResponsesBatch
      rw [reqResponsesExpected_congr (update_flow_requests _ rs now) k,
        reqResponsesExpected_mark]
      unfold writeFlowResponsesAndExpectedUpdates
      rw [reqResponsesExpected_stampFold_ne rs _ k (fun r hr _ => hnot r hr),
        reqResponsesExpected_congr (writeResponses_flow_requests rs db now) k]
    have hcnt0 : respCount db k = N := by
      rw [← hcnt]
      rw [respCount_congr (batch_flow_responses db rs now) k,
        respCount_writeResponses_ne rs db now k hnot]
    have hm0 : marked db k = true := h N hexp0 hcnt0 hN
    exact marked_batch_mono db rs now k hm0

/-! ## Lifting to `WriteFlowResponses` calls and call sequences -/

theorem completionInv_foldBatches (k : ReqKey) (now : Micros) :
    ∀ (chunks : List (List FlowResponseMsg)) (db : DB), CompletionInv k db →
      CompletionInv k (chunks.foldl
        (fun d batch => writeFlowResponsesBatch d batch now) db)
  | [], _, h => h
  | c :: t, db, h => by
      rw [List.foldl_cons]
      exact completionInv_foldBatches k now t _ (completionInv_batch k db c now h)

theorem completionInv_write (k : ReqKey) (db : DB)
    (rs : List FlowResponseMsg) (B : Nat) (now : Micros)
    (h : CompletionInv k db) :
    CompletionInv k (writeFlowResponses db rs B now) := by
  unfold writeFlowResponses
  split
  · exact h
  · exact completionInv_foldBatches k now (rs.toChunks B) db h

theorem marked_foldBatches_mono (k : ReqKey) (now : Micros) :
    ∀ (chunks : List (List FlowResponseMsg)) (db : DB), marked db k = true →
      marked (chunks.foldl
        (fun d batch => writeFlowResponsesBatch d batch now) db) k = true
  | [], _, h => h
  | c :: t, db, h => by
      rw [List.foldl_cons]
      exact marked_foldBatches_mono k now t _ (marked_batch_mono db c now k h)

theorem marked_write_mono (k : ReqKey) (db : DB) (rs : List FlowResponseMsg)
    (B : Nat) (now : Micros) (h : marked db k = true) :
    marked (writeFlowResponses db rs B now) k = true := by
  unfold writeFlowResponses
  split
  · exact h
  · exact marked_foldBatches_mono k now (rs.toChunks B) db h

theorem completionInv_runCalls (k : ReqKey) (B : Nat) :
    ∀ (cs : List WriteCall) (db : DB), CompletionInv k db →
      CompletionInv k (runCalls db B cs)
  | [], _, h => h
  | c :: t, db, h => by
      unfold runCalls
      exact completionInv_runCalls k B t _
        (completionInv_write k db c.responses B c.now h)

theorem marked_runCalls_mono (k : ReqKey) (B : Nat) :
    ∀ (cs : List WriteCall) (db : DB), marked db k = true →
      marked (runCalls db B cs) k = true
  | [], _, h => h
  | c :: t, db, h => by
      unfold runCalls
      exact marked_runCalls_mono k B t _
        (marked_write_mono k db c.responses B c.now h)

theorem transitionCount_zero_of_marked (k : ReqKey) (B : Nat) :
    ∀ (cs : List WriteCall) (db : DB), marked db k = true →
      transitionCount db B k cs = 0
  | [], _, _ => rfl
  | c :: t, db, h => by
      unfold transitionCount
      rw [h]
      dsimp only
      rw [transitionCount_zero_of_marked k B t _
        (marked_write_mono k db c.responses B c.now h)]
      simp

theorem transitionCount_one (k : ReqKey) (B : Nat) :
    ∀ (cs : List WriteCall) (db : DB), marked db k = false →
      marked (runCalls db B cs) k = true → transitionCount db B k cs = 1
  | [], db, h0, h1 => by
      unfold runCalls at h1
      rw [h0] at h1
      cases h1
  | c :: t, db, h0, h1 => by
      unfold transitionCount
      dsimp only
      cases hm : marked (writeFlowResponses db c.responses B c.now) k with
      | true =>
          rw [transitionCount_zero_of_marked k B t _ hm]
          simp [h0]
      | false =>
          rw [transitionCount_one k B t _ hm (by
            unfold runCalls at h1
            exact h1)]
          simp

/-- C1: for a request with `responses_expected = N ≥ 1`, once any sequence of
`WriteFlowResponses` calls — any arrival order, any retransmissions — has
left exactly `N` stored responses for it, the request is marked
`needs_processing`, and the flip from unmarked to marked happened in exactly
one of those calls. -/
theorem C1_completion_marks_exactly_once (k : ReqKey) (db : DB) (B : Nat)
    (cs : List WriteCall) (N : Nat)
    (h0 : marked db k = false)
    (hc0 : respCount db k = 0)
    (hexp : reqResponsesExpected (runCalls db B cs) k = some N)
    (hcnt : respCount (runCalls db B cs) k = N)
    (hN : 1 ≤ N) :
    marked (runCalls db B cs) k = true ∧ transitionCount db B k cs = 1 := by
  have hinv : CompletionInv k db := by
    intro N' _ hcnt' hN'
    rw [hc0] at hcnt'
    omega
  have hfinal : marked (runCalls db B cs) k = true :=
    completionInv_runCalls k B cs db hinv N hexp hcnt hN
  exact ⟨hfinal, transitionCount_one k B cs db h0 hfinal⟩

/-! ## Batching facts -/

theorem toChunks_go_mem {α : Type} (n : Nat) :
    ∀ (xs : List α) (acc1 : Array α) (acc2 : Array (List α)) (c : List α),
      c ∈ List.toChunks.go n xs acc1 acc2 → ∀ x ∈ c,
        x ∈ xs ∨ x ∈ acc1.toList ∨ ∃ d ∈ acc2.toList, x ∈ d
  | [], acc1, acc2, c, hc => by
      intro x hx
      simp only [List.toChunks.go, Array.push_toList] at hc
      rcases List.mem_append.mp hc with h | h
      · exact Or.inr (Or.inr ⟨c, h, hx⟩)
      · rw [List.mem_singleton] at h
        subst h
        exact Or.inr (Or.inl hx)
  | y :: ys, acc1, acc2, c, hc => by
      intro x hx
      simp only [List.toChunks.go] at hc
      split at hc
      · rcases toChunks_go_mem n ys _ _ c hc x hx with h | h | h
        · exact Or.inl (List.mem_cons_of_mem _ h)
        · simp only [Array.push_toList] at h
          simp at h
          subst h
          exact Or.inl (List.mem_cons_self _ _)
        · rcases h with ⟨d, hd, hxd⟩
          rw [Array.push_toList] at hd
          rcases List.mem_append.mp hd with h2 | h2
          · exact Or.inr (Or.inr ⟨d, h2, hxd⟩)
          · rw [List.mem_singleton] at h2
            subst h2
            exact Or.inr (Or.inl hxd)
      · rcases toChunks_go_mem n ys _ _ c hc x hx with h | h | h
        · exact Or.inl (List.mem_cons_of_mem _ h)
        · rw [Array.push_toList] at h
          rcases List.mem_append.mp h with h2 | h2
          · exact Or.inr (Or.inl h2)
          · rw [List.mem_singleton] at h2
            subst h2
            exact Or.inl (List.mem_cons_self _ _)
        · exact Or.inr (Or.inr h)

theorem mem_toChunks {α : Type} : ∀ (B : Nat) (rs : List α) (c : List α),
    c ∈ rs.toChunks B → ∀ x ∈ c, x ∈ rs
  | 0, [], c, hc => by simp [List.toChunks] at hc
  | _ + 1, [], c, hc => by simp [List.toChunks] at hc
  | 0, y :: ys, c, hc => by
      rw [show List.toChunks 0 (y :: ys) = [y :: ys] from rfl,
        List.mem_singleton] at hc
      subst hc
      exact fun x hx => hx
  | n + 1, y :: ys, c, hc => by
      intro x hx
      rw [show List.toChunks (n + 1) (y :: ys) =
        List.toChunks.go (n + 1) ys (List.toArray [y]) (List.toArray []) from
          rfl] at hc
      rcases toChunks_go_mem (n + 1) ys _ _ c hc x hx with h | h | h
      · exact List.mem_cons_of_mem _ h
      · simp at h
        subst h
        exact List.mem_cons_self _ _
      · simp at h

theorem toChunks_singleton {α : Type} (B : Nat) (a : α) :
    List.toChunks B [a] = [[a]] := by
  cases B with
  | zero => rfl
  | succ n => rfl

theorem writeFlowResponses_singleton (db : DB) (r : FlowResponseMsg)
    (B : Nat) (now : Micros) :
    writeFlowResponses db [r] B now = writeFlowResponsesBatch db [r] now := by
  unfold writeFlowResponses
  rw [if_neg (by simp), toChunks_singleton]
  rfl

/-- C3: re-writing a response with the same
`(client_id, flow_id, request_id, response_id)` key never errors (the model
is a total function), leaves exactly one stored copy of that response, and
does not change the response count the completion check uses. -/
theorem C3_duplicate_response_write_not_double_counted (db : DB)
    (r : FlowResponseMsg) (B : Nat) (now1 now2 : Micros)
    (hreq : requestExists db r.reqKey = true)
    (hdup : (db.flow_responses.filter (respFullKeyPred r)).length ≤ 1) :
    (((writeFlowResponses (writeFlowResponses db [r] B now1) [r] B
        now2).flow_responses.filter (respFullKeyPred r)).length = 1) ∧
    respCount (writeFlowResponses (writeFlowResponses db [r] B now1) [r] B
        now2) r.reqKey =
      respCount (writeFlowResponses db [r] B now1) r.reqKey := by
  rw [writeFlowResponses_singleton, writeFlowResponses_singleton]
  have hA : (writeFlowResponsesBatch db [r] now1).flow_responses =
      (insertResponse now1 db r).flow_responses := batch_flow_responses db [r] now1
  have h1 : (((insertResponse now1 db r).flow_responses.filter
      (respFullKeyPred r)).length) = 1 := by
    cases hany : db.flow_responses.any (respFullKeyPred r) with
    | false =>
        have hc : (requestExists db r.reqKey &&
            !db.flow_responses.any (respFullKeyPred r)) = true := by
          rw [hreq, hany]
          rfl
        unfold insertResponse
        rw [hc, if_pos rfl]
        dsimp only
        rw [List.filter_append]
        have hnil : db.flow_responses.filter (respFullKeyPred r) = [] := by
          rw [List.filter_eq_nil_iff]
          intro a ha
          simp only [List.any_eq_false] at hany
          simp [hany a ha]
        rw [hnil]
        simp [respFullKeyPred]
    | true =>
        have hc : (requestExists db r.reqKey &&
            !db.flow_responses.any (respFullKeyPred r)) = false := by
          rw [hreq, hany]
          rfl
        unfold insertResponse
        rw [hc, if_neg (by simp)]
        have hge : 1 ≤ (db.flow_responses.filter (respFullKeyPred r)).length := by
          simp only [List.any_eq_true] at hany
          rcases hany with ⟨a, ha, hpa⟩
          exact List.length_pos.mpr
            (List.ne_nil_of_mem (List.mem_filter.mpr ⟨ha, hpa⟩))
        omega
  have hmem : (writeFlowResponsesBatch db [r] now1).flow_responses.any
      (respFullKeyPred r) = true := by
    rw [hA, List.any_eq_true]
    have hne : (insertResponse now1 db r).flow_responses.filter
        (respFullKeyPred r) ≠ [] := by
      intro hcontra
      rw [hcontra] at h1
      simp at h1
    rcases List.exists_mem_of_ne_nil _ hne with ⟨a, ha⟩
    exact ⟨a, (List.mem_filter.mp ha).1, (List.mem_filter.mp ha).2⟩
  have hskip : (insertResponse now2 (writeFlowResponsesBatch db [r] now1)
      r).flow_responses =
      (writeFlowResponsesBatch db [r] now1).flow_responses := by
    unfold insertResponse
    rw [hmem]
    simp
  have hBB : (writeFlowResponsesBatch (writeFlowResponsesBatch db [r] now1)
      [r] now2).flow_responses =
      (writeFlowResponsesBatch db [r] now1).flow_responses := by
    rw [batch_flow_responses _ [r] now2]
    exact hskip
  constructor
  · rw [hBB, hA]
    exact h1
  · exact respCount_congr hBB r.reqKey

/-- Witness for C3 at a concrete state. -/
theorem C3_duplicate_response_write_not_double_counted_witness :
    (((writeFlowResponses (writeFlowResponses Ex.db0 [Ex.resp1] 100 10)
        [Ex.resp1] 100 20).flow_responses.filter
        (respFullKeyPred Ex.resp1)).length = 1) ∧
    respCount (writeFlowResponses (writeFlowResponses Ex.db0 [Ex.resp1] 100
        10) [Ex.resp1] 100 20) Ex.resp1.reqKey =
      respCount (writeFlowResponses Ex.db0 [Ex.resp1] 100 10)
        Ex.resp1.reqKey :=
  C3_duplicate_response_write_not_double_counted Ex.db0 Ex.resp1 100 10 20
    (by decide) (by decide)

/-- Witness for C1: the two-call scenario delivering a data response then
the status marks request 3 exactly once. -/
theorem C1_completion_marks_exactly_once_witness :
    marked (runCalls Ex.db0 100 [⟨[Ex.resp1], 10⟩, ⟨[Ex.stat2], 20⟩])
      ("C1", "F1", 3) = true ∧
    transitionCount Ex.db0 100 ("C1", "F1", 3)
      [⟨[Ex.resp1], 10⟩, ⟨[Ex.stat2], 20⟩] = 1 :=
  C1_completion_marks_exactly_once ("C1", "F1", 3) Ex.db0 100
    [⟨[Ex.resp1], 10⟩, ⟨[Ex.stat2], 20⟩] 2 (by decide) (by decide)
    (by decide) (by decide) (by decide)

/-! ## `responses_expected` tracking across whole calls (C9) -/

theorem requestExists_congr {db1 db2 : DB}
    (h : db1.flow_requests = db2.flow_requests) (k : ReqKey) :
    requestExists db1 k = requestExists db2 k := by
  unfold requestExists
  rw [findRequest_congr h]

theorem requestExists_stamp (db : DB) (r : FlowResponseMsg) (k : ReqKey) :
    requestExists (stampResponsesExpected db r) k = requestExists db k := by
  unfold stampResponsesExpected
  split
  · unfold requestExists
    rw [findRequest_map db _ k (by intro q; split <;> rfl)]
    cases findRequest db k <;> rfl
  · rfl

theorem requestExists_stampFold (rs : List FlowResponseMsg) (db : DB)
    (k : ReqKey) :
    requestExists (rs.foldl stampResponsesExpected db) k =
      requestExists db k := by
  induction rs generalizing db with
  | nil => rfl
  | cons r t ih =>
      rw [List.foldl_cons, ih, requestExists_stamp]

theorem requestExists_mark (db : DB) (counts : ReqKey → Option Nat)
    (k : ReqKey) :
    requestExists (markNeedsProcessing db counts) k = requestExists db k := by
  unfold requestExists
  rw [findRequest_mark]
  cases findRequest db k <;> rfl

theorem requestExists_batch (db : DB) (rs : List FlowResponseMsg)
    (now : Micros) (k : ReqKey) :
    requestExists (writeFlowResponsesBatch db rs now) k =
      requestExists db k := by
  unfold writeFlowResponsesBatch
  rw [requestExists_congr (update_flow_requests _ rs now) k,
    requestExists_mark]
  unfold writeFlowResponsesAndExpectedUpdates
  rw [requestExists_stampFold,
    requestExists_congr (writeResponses_flow_requests rs db now) k]

theorem reqResponsesExpected_batch_nostatus (db : DB)
    (rs : List FlowResponseMsg) (now : Micros) (k : ReqKey)
    (h : ∀ r ∈ rs, r.kind = ResponseKind.status → r.reqKey ≠ k) :
    reqResponsesExpected (writeFlowResponsesBatch db rs now) k =
      reqResponsesExpected db k := by
  unfold writeFlowResponsesBatch
  rw [reqResponsesExpected_congr (update_flow_requests _ rs now) k,
    reqResponsesExpected_mark]
  unfold writeFlowResponsesAndExpectedUpdates
  rw [reqResponsesExpected_stampFold_ne rs _ k h,
    reqResponsesExpected_congr (writeResponses_flow_requests rs db now) k]

theorem reqResponsesExpected_write_nostatus (db : DB)
    (rs : List FlowResponseMsg) (B : Nat) (now : Micros) (k : ReqKey)
    (h : ∀ r ∈ rs, r.kind = ResponseKind.status → r.reqKey ≠ k) :
    reqResponsesExpected (writeFlowResponses db rs B now) k =
      reqResponsesExpected db k := by
  unfold writeFlowResponses
  split
  · rfl
  · have hfold : ∀ (chunks : List (List FlowResponseMsg)),
        (∀ c ∈ chunks, ∀ r ∈ c, r.kind = ResponseKind.status → r.reqKey ≠ k) →
        ∀ d : DB, reqResponsesExpected (chunks.foldl
          (fun d batch => writeFlowResponsesBatch d batch now) d) k =
          reqResponsesExpected d k := by
      intro chunks
      induction chunks with
      | nil => intro _ d; rfl
      | cons c t ih =>
          intro hc d
          rw [List.foldl_cons,
            ih (fun c' hc' => hc c' (List.mem_cons_of_mem c hc')) _,
            reqResponsesExpected_batch_nostatus d c now k
              (hc c (List.mem_cons_self c t))]
    exact hfold _ (fun c hc r hr => h r (mem_toChunks B rs c hc r hr)) db

/-- `WriteFlowResponses` of a single Status stamps `responses_expected` with
the status's `response_id` whenever the request row exists. -/
theorem expected_write_status_single (db : DB) (r : FlowResponseMsg)
    (B : Nat) (now : Micros) (hst : r.kind = ResponseKind.status)
    (hex : requestExists db r.reqKey = true) :
    reqResponsesExpected (writeFlowResponses db [r] B now) r.reqKey =
      some r.response_id := by
  rw [writeFlowResponses_singleton]
  unfold writeFlowResponsesBatch
  rw [reqResponsesExpected_congr (update_flow_requests _ [r] now) r.reqKey,
    reqResponsesExpected_mark]
  unfold writeFlowResponsesAndExpectedUpdates
  rw [List.foldl_cons, List.foldl_nil]
  have hex1 : requestExists (writeResponses db [r] now) r.reqKey = true := by
    rw [requestExists_congr (writeResponses_flow_requests [r] db now) r.reqKey]
    exact hex
  rcases Option.isSome_iff_exists.mp hex1 with ⟨q, hq⟩
  exact reqResponsesExpected_stamp_self _ r hst q hq

theorem requestExists_write_singleton (db : DB) (r : FlowResponseMsg)
    (B : Nat) (now : Micros) (k : ReqKey) :
    requestExists (writeFlowResponses db [r] B now) k = requestExists db k := by
  rw [writeFlowResponses_singleton]
  exact requestExists_batch db [r] now k

/-- One `next_response_id` cursor update step leaves `responses_expected`
unchanged (the UPDATE touches no other column). -/
theorem reqResponsesExpected_cursor_step (db : DB) (cid fid : String)
    (u : Nat × Nat) (k : ReqKey) :
    reqResponsesExpected
      { db with
        flow_requests := db.flow_requests.map (fun q =>
          if q.client_id == cid && q.flow_id == fid &&
              q.request_id == u.1 then
            { q with next_response_id := u.2 }
          else q) } k = reqResponsesExpected db k := by
  unfold reqResponsesExpected
  rw [findRequest_map db _ k (by intro q; split <;> rfl)]
  cases findRequest db k with
  | none => rfl
  | some q =>
      show (if (q.client_id == cid && q.flow_id == fid &&
          q.request_id == u.1) = true then
        { q with next_response_id := u.2 } else q).responses_expected =
        q.responses_expected
      split <;> rfl

/-- The cursor-update fold of `UpdateIncrementalFlowRequests` leaves
`responses_expected` unchanged. -/
theorem reqResponsesExpected_cursor_fold (cid fid : String) (k : ReqKey) :
    ∀ (updates : List (Nat × Nat)) (db : DB),
      reqResponsesExpected (updates.foldl (fun d u =>
        { d with
          flow_requests := d.flow_requests.map (fun q =>
            if q.client_id == cid && q.flow_id == fid &&
                q.request_id == u.1 then
              { q with next_response_id := u.2 }
            else q) }) db) k = reqResponsesExpected db k
  | [], _ => rfl
  | u :: t, db => by
      rw [List.foldl_cons, reqResponsesExpected_cursor_fold cid fid k t _,
        reqResponsesExpected_cursor_step db cid fid u k]

/-- `UpdateIncrementalFlowRequests` never changes `responses_expected`. -/
theorem reqResponsesExpected_updateIncremental (db : DB) (cid fid : String)
    (updates : List (Nat × Nat)) (k : ReqKey) :
    reqResponsesExpected (updateIncrementalFlowRequests db cid fid updates) k
      = reqResponsesExpected db k := by
  unfold updateIncrementalFlowRequests
  split
  · rfl
  · exact reqResponsesExpected_cursor_fold cid fid k updates db

/-- C9 counterexample: request 3's `responses_expected` is set to 2 by the
first Status, and a later `WriteFlowResponses` with a Status carrying
`response_id = 5` for the same request changes it to 5 — refuting that the
value, once set, is never changed by a subsequent operation. -/
theorem C9_counterexample_second_status_overwrites :
    reqResponsesExpected Ex.db2 ("C1", "F1", 3) = some 2 ∧
    reqResponsesExpected (writeFlowResponses Ex.db2 [Ex.stat5] 100 40)
      ("C1", "F1", 3) = some 5 :=
  ⟨by decide, by decide⟩

/-- C9 (amended): `responses_expected` is written only by Status responses:
a `WriteFlowResponses` call containing no Status for a request leaves the
request's `responses_expected` unchanged, writing a Status stamps it with
that status's `response_id`, so retransmitting the same Status leaves the
value unchanged (while a Status with a different response id would
overwrite it), and `UpdateIncrementalFlowRequests`-style cursor updates
never change it either. -/
theorem C9_amended_expected_written_only_by_status :
    (∀ (db : DB) (rs : List FlowResponseMsg) (B : Nat) (now : Micros)
      (k : ReqKey), (∀ r ∈ rs, r.kind = ResponseKind.status → r.reqKey ≠ k) →
      reqResponsesExpected (writeFlowResponses db rs B now) k =
        reqResponsesExpected db k) ∧
    (∀ (db : DB) (r : FlowResponseMsg) (B : Nat) (now1 now2 : Micros),
      r.kind = ResponseKind.status → requestExists db r.reqKey = true →
      reqResponsesExpected (writeFlowResponses db [r] B now1) r.reqKey =
        some r.response_id ∧
      reqResponsesExpected (writeFlowResponses
        (writeFlowResponses db [r] B now1) [r] B now2) r.reqKey =
        some r.response_id) ∧
    (∀ (db : DB) (cid fid : String) (updates : List (Nat × Nat))
      (k : ReqKey),
      reqResponsesExpected (updateIncrementalFlowRequests db cid fid
        updates) k = reqResponsesExpected db k) := by
  refine ⟨reqResponsesExpected_write_nostatus, ?_,
    reqResponsesExpected_updateIncremental⟩
  intro db r B now1 now2 hst hex
  refine ⟨expected_write_status_single db r B now1 hst hex, ?_⟩
  refine expected_write_status_single _ r B now2 hst ?_
  rw [requestExists_write_singleton db r B now1 r.reqKey]
  exact hex

/-- Witness for the amended C9: a non-Status write leaves request 3's
`responses_expected` at 2, retransmitting the same Status twice leaves it
stamped at 2, and a cursor update for request 3 leaves it unchanged. -/
theorem C9_amended_expected_written_only_by_status_witness :
    (reqResponsesExpected (writeFlowResponses Ex.db2 [Ex.resp1] 100 50)
        ("C1", "F1", 3) = reqResponsesExpected Ex.db2 ("C1", "F1", 3)) ∧
    (reqResponsesExpected (writeFlowResponses Ex.db0 [Ex.stat2] 100 10)
        ("C1", "F1", 3) = some 2 ∧
      reqResponsesExpected (writeFlowResponses
        (writeFlowResponses Ex.db0 [Ex.stat2] 100 10) [Ex.stat2] 100 20)
        ("C1", "F1", 3) = some 2) ∧
    (reqResponsesExpected (updateIncrementalFlowRequests Ex.db2 "C1" "F1"
        [(3, 7)]) ("C1", "F1", 3) =
      reqResponsesExpected Ex.db2 ("C1", "F1", 3)) :=
  ⟨C9_amended_expected_written_only_by_status.1 Ex.db2 [Ex.resp1] 100 50
      ("C1", "F1", 3) (by decide),
    C9_amended_expected_written_only_by_status.2.1 Ex.db0 Ex.stat2 100 10 20
      (by decide) (by decide),
    C9_amended_expected_written_only_by_status.2.2 Ex.db2 "C1" "F1"
      [(3, 7)] ("C1", "F1", 3)⟩

/-- C10: calling `WriteFlowResponses`, `DeleteFlowRequests`,
`AckFlowProcessingRequests` or `UpdateIncrementalFlowRequests` with an empty
collection returns without error and leaves the whole database state
unchanged. -/
theorem C10_empty_batch_operations_are_noops (db : DB) (batchSize : Nat)
    (now : Micros) (cid fid : String) :
    writeFlowResponses db [] batchSize now = db ∧
    deleteFlowRequests db [] batchSize = db ∧
    ackFlowProcessingRequests db [] = db ∧
    updateIncrementalFlowRequests db cid fid [] = db :=
  ⟨rfl, rfl, rfl, rfl⟩

/-! ## `ReleaseProcessedFlow` (C4) -/

theorem blockingRequest_iff (db : DB) (f : Flow) (now : Micros) :
    blockingRequest db f now = true ↔ SpecBlockingRequest db f now := by
  unfold blockingRequest SpecBlockingRequest
  rw [List.any_eq_true]
  constructor
  · rintro ⟨q, hq, hcond⟩
    simp only [Bool.and_eq_true, Bool.or_eq_true, beq_iff_eq,
      Option.isNone_iff_eq_none, decide_eq_true_eq] at hcond
    exact ⟨q, hq, hcond.1.1.1.1, hcond.1.1.1.2, hcond.1.1.2, hcond.1.2,
      hcond.2⟩
  · rintro ⟨q, hq, h1, h2, h3, h4, h5⟩
    refine ⟨q, hq, ?_⟩
    simp only [Bool.and_eq_true, Bool.or_eq_true, beq_iff_eq,
      Option.isNone_iff_eq_none, decide_eq_true_eq]
    exact ⟨⟨⟨⟨h1, h2⟩, h3⟩, h4⟩, h5⟩

/-- C4 counterexample: at time 20 the request at the flow's
`next_request_to_process` is marked `needs_processing` (with a start time of
1000, still in the future), yet `ReleaseProcessedFlow` applies its update
and returns true — refuting that the presence of such a request always makes
the call a no-op returning false. -/
theorem C4_counterexample_future_start_time_blocks_nothing :
    (∃ q ∈ Ex.dbRelFuture.flow_requests,
      q.client_id = Ex.baseFlow.client_id ∧
      q.flow_id = Ex.baseFlow.flow_id ∧
      q.request_id = Ex.baseFlow.next_request_to_process ∧
      q.needs_processing = true) ∧
    (releaseProcessedFlow Ex.dbRelFuture Ex.baseFlow 20).1 = true ∧
    (releaseProcessedFlow Ex.dbRelFuture Ex.baseFlow 20).2 ≠ Ex.dbRelFuture :=
  ⟨by decide, by decide, by decide⟩

/-- C4 (amended): `ReleaseProcessedFlow` clears the lease fields and writes
the new payload, state, accounting and `next_request_to_process`, returning
true, only if no `needs_processing` request whose start time is absent or
already passed sits at the flow's `next_request_to_process`; if such a
request exists the update does not apply, the state is unchanged, and the
call returns false.  (A `needs_processing` request whose start time is still
in the future does not block the release.) -/
theorem C4_amended_release_guard (db : DB) (f : Flow) (now : Micros) :
    (SpecBlockingRequest db f now →
      releaseProcessedFlow db f now = (false, db)) ∧
    (¬ SpecBlockingRequest db f now →
      db.flows.countP (flowKeyPred (f.client_id, f.flow_id)) = 1 →
      (releaseProcessedFlow db f now).1 = true ∧
      (∀ fr ∈ (releaseProcessedFlow db f now).2.flows,
        flowKeyPred (f.client_id, f.flow_id) fr = true →
        fr.flow = f.clearProcessing ∧ fr.processing_on = none ∧
        fr.processing_since = none ∧ fr.processing_deadline = none ∧
        fr.next_request_to_process = f.next_request_to_process ∧
        fr.flow_state = f.flow_state ∧
        fr.user_cpu_time_used_micros = f.user_cpu_time_used_micros ∧
        fr.system_cpu_time_used_micros = f.system_cpu_time_used_micros ∧
        fr.network_bytes_sent = f.network_bytes_sent ∧
        fr.num_replies_sent = f.num_replies_sent) ∧
      (releaseProcessedFlow db f now).2.flow_requests = db.flow_requests ∧
      (releaseProcessedFlow db f now).2.flow_responses = db.flow_responses ∧
      (releaseProcessedFlow db f now).2.flow_processing_requests =
        db.flow_processing_requests) := by
  constructor
  · intro hblock
    have hbr : blockingRequest db f now = true :=
      (blockingRequest_iff db f now).mpr hblock
    unfold releaseProcessedFlow
    rw [if_pos hbr]
  · intro hnb hcount
    have hbr : blockingRequest db f now = false := by
      cases hb : blockingRequest db f now
      · rfl
      · exact absurd ((blockingRequest_iff db f now).mp hb) hnb
    simp only [releaseProcessedFlow, hbr, Bool.false_eq_true, if_false]
    refine ⟨?_, ?_, by trivial, by trivial, by trivial⟩
    · rw [hcount]
      rfl
    · intro fr hfr hkey
      rcases List.mem_map.mp hfr with ⟨fr0, hfr0, heq⟩
      by_cases hp : flowKeyPred (f.client_id, f.flow_id) fr0 = true
      · rw [if_pos hp] at heq
        subst heq
        exact ⟨rfl, rfl, rfl, rfl, rfl, rfl, rfl, rfl, rfl, rfl⟩
      · rw [if_neg hp] at heq
        subst heq
        exact absurd hkey hp

/-- Witness for the amended C4: a ready `needs_processing` request at id 3
blocks the release (false, unchanged state); with only a future-start-time
request there, the release applies and returns true. -/
theorem C4_amended_release_guard_witness :
    releaseProcessedFlow Ex.dbRelReady Ex.baseFlow 20 =
      (false, Ex.dbRelReady) ∧
    (releaseProcessedFlow Ex.dbRelFuture Ex.baseFlow 20).1 = true :=
  ⟨(C4_amended_release_guard Ex.dbRelReady Ex.baseFlow 20).1
      (by unfold SpecBlockingRequest; decide),
    ((C4_amended_release_guard Ex.dbRelFuture Ex.baseFlow 20).2
      (by unfold SpecBlockingRequest; decide) (by decide)).1⟩

/-! ## `LeaseFlowForProcessing` (C5, C6) -/

theorem rowToFlow_processing_on (row : FlowRow) :
    (rowToFlow row).processing_on = row.processing_on := rfl

theorem rowToFlow_processing_deadline (row : FlowRow) :
    (rowToFlow row).processing_deadline = row.processing_deadline := rfl

/-- Successful lease: with the flow present, no live lease and the hunt gate
open, the lease stamps the worker id, `processing_since = now` and
`processing_deadline = now + duration` both on the returned flow and on the
stored row. -/
theorem lease_success (db : DB) (cid fid w : String) (dur now : Micros)
    (row : FlowRow) (suitable : Nat → Bool)
    (hfind : findFlow db (cid, fid) = some row)
    (hfree : (processingOnSet (rowToFlow row).processing_on &&
      decide (now < (rowToFlow row).processing_deadline.getD 0)) = false)
    (hhunt : huntBlocked db (rowToFlow row) suitable = false) :
    (leaseFlowForProcessing db cid fid dur now w suitable).1 =
      Except.ok { rowToFlow row with
        processing_on := some w, processing_since := some now,
        processing_deadline := some (now + dur) } ∧
    (∀ fr ∈ (leaseFlowForProcessing db cid fid dur now w suitable).2.flows,
      flowKeyPred (cid, fid) fr = true →
      fr.processing_on = some w ∧ fr.processing_since = some now ∧
      fr.processing_deadline = some (now + dur)) := by
  simp only [leaseFlowForProcessing, hfind]
  rw [if_neg (by rw [hfree]; simp), if_neg (by rw [hhunt]; simp)]
  refine ⟨rfl, ?_⟩
  intro fr hfr hkey
  rcases List.mem_map.mp hfr with ⟨fr0, hfr0, heq⟩
  by_cases hp : flowKeyPred (cid, fid) fr0 = true
  · rw [if_pos hp] at heq
    subst heq
    exact ⟨rfl, rfl, rfl⟩
  · rw [if_neg hp] at heq
    subst heq
    exact absurd hkey hp

/-- C5: a second `LeaseFlowForProcessing` before the deadline fails with the
concurrency error leaving the state unchanged; after the deadline has passed
(and with the hunt gate open) a second caller's lease succeeds and stamps
the lease fields. -/
theorem C5_lease_concurrency (db : DB) (cid fid w2 : String)
    (dur now1 now2 d : Micros) (row : FlowRow) (suitable : Nat → Bool)
    (hfind : findFlow db (cid, fid) = some row)
    (hon : processingOnSet row.processing_on = true)
    (hdl : row.processing_deadline = some d)
    (h1 : now1 < d) :
    (leaseFlowForProcessing db cid fid dur now1 w2 suitable =
      (Except.error FlowDBError.flowAlreadyBeingProcessed, db)) ∧
    (d ≤ now2 → huntBlocked db (rowToFlow row) suitable = false →
      (leaseFlowForProcessing db cid fid dur now2 w2 suitable).1 =
        Except.ok { rowToFlow row with
          processing_on := some w2, processing_since := some now2,
          processing_deadline := some (now2 + dur) } ∧
      (∀ fr ∈ (leaseFlowForProcessing db cid fid dur now2 w2
          suitable).2.flows, flowKeyPred (cid, fid) fr = true →
        fr.processing_on = some w2 ∧ fr.processing_since = some now2 ∧
        fr.processing_deadline = some (now2 + dur))) := by
  constructor
  · have hcond : (processingOnSet (rowToFlow row).processing_on &&
        decide (now1 < (rowToFlow row).processing_deadline.getD 0)) = true := by
      rw [rowToFlow_processing_on, rowToFlow_processing_deadline, hon, hdl]
      simp [h1]
    simp only [leaseFlowForProcessing, hfind]
    rw [if_pos hcond]
  · intro hpassed hhunt
    refine lease_success db cid fid w2 dur now2 row suitable hfind ?_ hhunt
    rw [rowToFlow_processing_deadline, hdl]
    simp [Nat.not_lt.mpr hpassed]

/-- Witness for C5 on the concrete leased flow (deadline 50): a second
worker fails at time 20 and succeeds at time 60. -/
theorem C5_lease_concurrency_witness :
    (leaseFlowForProcessing Ex.dbLeased "C1" "F1" 30 20 "w2" (fun _ => true) =
      (Except.error FlowDBError.flowAlreadyBeingProcessed, Ex.dbLeased)) ∧
    (leaseFlowForProcessing Ex.dbLeased "C1" "F1" 30 60 "w2"
        (fun _ => true)).1 =
      Except.ok { rowToFlow Ex.leasedFlowRow with
        processing_on := some "w2", processing_since := some 60,
        processing_deadline := some 90 } := by
  have h := C5_lease_concurrency Ex.dbLeased "C1" "F1" "w2" 30 20 60 50
    Ex.leasedFlowRow (fun _ => true) (by decide) (by decide) (by decide)
    (by decide)
  exact ⟨h.1, (h.2 (by decide) (by decide)).1⟩

/-- C6 counterexample: for a flow holding an unexpired lease whose parent
hunt is in an unsuitable state, `LeaseFlowForProcessing` raises the
concurrency error, not `ParentHuntIsNotRunningError` — the already-leased
check precedes the hunt check. -/
theorem C6_counterexample_lease_check_precedes_hunt_check :
    (rowToFlow Ex.huntLeasedRow).parent_hunt_id = some "H1" ∧
    Ex.dbHuntLeased.hunts = [("H1", some 7)] ∧
    Ex.rejectState7 7 = false ∧
    (leaseFlowForProcessing Ex.dbHuntLeased "C1" "F1" 30 20 "w2"
        Ex.rejectState7).1 =
      Except.error FlowDBError.flowAlreadyBeingProcessed :=
  ⟨rfl, rfl, rfl, rfl⟩

/-- C6 (amended): for a flow not under an unexpired lease, if it belongs to
a hunt whose non-NULL state the suitability predicate rejects, the lease
raises `ParentHuntIsNotRunningError` and changes nothing; when not blocked
this way (no parent hunt, hunt row or state missing, or suitable state) the
lease succeeds, atomically stamping `processing_on` with the worker id,
`processing_since = now` and `processing_deadline = now + duration`, and
returns the up-to-date flow. -/
theorem C6_amended_hunt_gate (db : DB) (cid fid w : String)
    (dur now : Micros) (row : FlowRow) (suitable : Nat → Bool)
    (hfind : findFlow db (cid, fid) = some row)
    (hfree : (processingOnSet (rowToFlow row).processing_on &&
      decide (now < (rowToFlow row).processing_deadline.getD 0)) = false) :
    (∀ h h2 st, (rowToFlow row).parent_hunt_id = some h →
      db.hunts.find? (fun hr => hr.1 == h) = some (h2, some st) →
      suitable st = false →
      leaseFlowForProcessing db cid fid dur now w suitable =
        (Except.error FlowDBError.parentHuntIsNotRunning, db)) ∧
    (huntBlocked db (rowToFlow row) suitable = false →
      (leaseFlowForProcessing db cid fid dur now w suitable).1 =
        Except.ok { rowToFlow row with
          processing_on := some w, processing_since := some now,
          processing_deadline := some (now + dur) } ∧
      (∀ fr ∈ (leaseFlowForProcessing db cid fid dur now w
          suitable).2.flows, flowKeyPred (cid, fid) fr = true →
        fr.processing_on = some w ∧ fr.processing_since = some now ∧
        fr.processing_deadline = some (now + dur))) := by
  constructor
  · intro h h2 st hhunt hlookup hsuit
    have hblocked : huntBlocked db (rowToFlow row) suitable = true := by
      unfold huntBlocked
      rw [hhunt]
      dsimp only
      rw [hlookup]
      simp [hsuit]
    simp only [leaseFlowForProcessing, hfind]
    rw [if_neg (by rw [hfree]; simp), if_pos hblocked]
  · intro hhunt
    exact lease_success db cid fid w dur now row suitable hfind hfree hhunt

/-- Witness for the amended C6: the unsuitable hunt blocks the lease of the
unleased hunt flow; the plain flow with no parent hunt leases
successfully. -/
theorem C6_amended_hunt_gate_witness :
    (leaseFlowForProcessing Ex.dbHunt "C1" "F1" 30 20 "w2" Ex.rejectState7 =
      (Except.error FlowDBError.parentHuntIsNotRunning, Ex.dbHunt)) ∧
    (leaseFlowForProcessing Ex.db0 "C1" "F1" 30 20 "w2"
        Ex.rejectState7).1 =
      Except.ok { rowToFlow Ex.baseFlowRow with
        processing_on := some "w2", processing_since := some 20,
        processing_deadline := some 50 } :=
  ⟨(C6_amended_hunt_gate Ex.dbHunt "C1" "F1" "w2" 30 20 Ex.huntFlowRow
      Ex.rejectState7 (by decide) (by decide)).1 "H1" "H1" 7 (by decide)
      (by decide) (by decide),
    ((C6_amended_hunt_gate Ex.db0 "C1" "F1" "w2" 30 20 Ex.baseFlowRow
      Ex.rejectState7 (by decide) (by decide)).2 (by decide)).1⟩

/-! ## `WriteFlowRequests` FPR side effect (C8) -/

theorem dedup_const {α : Type} [DecidableEq α] (a : α) :
    ∀ l : List α, (∀ x ∈ l, x = a) →
      l.dedup = if l.isEmpty then [] else [a]
  | [], _ => rfl
  | x :: t, h => by
      have hx : x = a := h x (List.mem_cons_self x t)
      cases t with
      | nil =>
          rw [hx]
          simp
      | cons y ys =>
          have hy : y = a :=
            h y (List.mem_cons_of_mem x (List.mem_cons_self y ys))
          have hmem : x ∈ y :: ys := by
            rw [hx, ← hy]
            exact List.mem_cons_self y ys
          rw [List.dedup_cons_of_mem hmem,
            dedup_const a (y :: ys)
              (fun z hz => h z (List.mem_cons_of_mem x hz))]
          simp

theorem filterMap_guard {α β : Type} (c : α → Bool) (m : α → β)
    (l : List α) :
    l.filterMap (fun a => if c a then some (m a) else none) =
      (l.filter c).map m := by
  induction l with
  | nil => rfl
  | cons a t ih =>
      by_cases h : c a = true <;>
        simp [List.filterMap_cons, List.filter_cons, h, ih]

/-- For a batch of requests all belonging to one existing flow, the FPRs
emitted by `WriteFlowRequests` are exactly those of the `needs_processing`
requests whose id matches the flow's `next_request_to_process` or whose
`start_time` is set. -/
theorem emittedFPRs_single_flow (db : DB) (rs : List FlowRequestMsg)
    (cid fid : String) (fr : FlowRow)
    (hkeys : ∀ r ∈ rs, r.client_id = cid ∧ r.flow_id = fid)
    (hflow : findFlow db (cid, fid) = some fr) :
    emittedFPRs db rs = (rs.filter fun r => r.needs_processing &&
        (fr.next_request_to_process == r.request_id ||
          r.start_time.isSome)).map fun r =>
      { client_id := cid, flow_id := fid, delivery_time := r.start_time } := by
  have hnp : ∀ r ∈ rs.filter (fun r => r.needs_processing),
      r.flowKey = (cid, fid) := by
    intro r hr
    rcases hkeys r (List.mem_of_mem_filter hr) with ⟨h1, h2⟩
    unfold FlowRequestMsg.flowKey
    rw [h1, h2]
  have hmapconst : ∀ x ∈ (rs.filter (fun r => r.needs_processing)).map
      FlowRequestMsg.flowKey, x = (cid, fid) := by
    intro x hx
    rcases List.mem_map.mp hx with ⟨r, hr, heq⟩
    rw [← heq]
    exact hnp r hr
  simp only [emittedFPRs]
  rw [dedup_const (cid, fid) _ hmapconst]
  cases hfil : rs.filter (fun r => r.needs_processing) with
  | nil =>
      have hrs : rs.filter (fun r => r.needs_processing &&
          (fr.next_request_to_process == r.request_id ||
            r.start_time.isSome)) = [] := by
        rw [List.filter_eq_nil_iff]
        intro a ha
        have := List.filter_eq_nil_iff.mp hfil a ha
        simp at this
        simp [this]
      rw [hrs]
      rfl
  | cons hd tl =>
      have hone : (((hd :: tl).map FlowRequestMsg.flowKey).isEmpty) = false := rfl
      rw [hone]
      simp only [Bool.false_eq_true, if_false, List.flatMap_cons,
        List.flatMap_nil, List.append_nil]
      rw [hflow]
      have hself : (hd :: tl).filter
          (fun r => r.flowKey == (cid, fid)) = hd :: tl := by
        rw [List.filter_eq_self]
        intro a ha
        rw [hnp a (hfil ▸ ha)]
        simp
      dsimp only
      rw [hself, filterMap_guard, ← hfil, List.filter_filter]
      rw [List.filter_congr
        (fun a _ => Bool.and_comm (fr.next_request_to_process == a.request_id
          || a.start_time.isSome) a.needs_processing)]

/-- C8 counterexample: request 9 carries a start time but is not flagged
`needs_processing`; its flow exists, yet `WriteFlowRequests` emits no FPR —
refuting that a start time alone triggers emission. -/
theorem C8_counterexample_start_time_alone_triggers_nothing :
    Ex.reqMsg9.needs_processing = false ∧
    Ex.reqMsg9.start_time.isSome = true ∧
    (findFlow Ex.db0 Ex.reqMsg9.flowKey).isSome = true ∧
    fprCountAfter (writeFlowRequests Ex.db0 [Ex.reqMsg9] 50) = some 0 :=
  ⟨rfl, rfl, rfl, by decide⟩

/-- C8 (amended): for a batch of requests for one existing flow,
`WriteFlowRequests` appends exactly one FPR for every written request
flagged `needs_processing` whose id equals the flow's current
`next_request_to_process` or whose `start_time` is present (a start time
always triggers emission regardless of ordering, but only for
`needs_processing` requests), carrying the request's `start_time` as the
FPR's `delivery_time` when present. -/
theorem C8_amended_fpr_side_effect (db : DB) (rs : List FlowRequestMsg)
    (now : Micros) (cid fid : String) (fr : FlowRow) (db' : DB)
    (hkeys : ∀ r ∈ rs, r.client_id = cid ∧ r.flow_id = fid)
    (hflow : findFlow db (cid, fid) = some fr)
    (hok : writeFlowRequests db rs now = Except.ok db') :
    db'.flow_processing_requests = db.flow_processing_requests ++
      ((rs.filter fun r => r.needs_processing &&
          (fr.next_request_to_process == r.request_id ||
            r.start_time.isSome)).map fun r =>
        { client_id := cid, flow_id := fid,
          request :=
            { client_id := cid, flow_id := fid,
              delivery_time := r.start_time },
          delivery_time := r.start_time, leased_until := none,
          leased_by := none, timestamp := now }) := by
  unfold writeFlowRequests at hok
  split at hok
  · cases hok
  · have hdb' : db' = { writeFPRs db (emittedFPRs db rs) now with
        flow_requests := (writeFPRs db (emittedFPRs db rs)
          now).flow_requests ++
          (rs.map fun r =>
            { client_id := r.client_id, flow_id := r.flow_id,
              request_id := r.request_id,
              needs_processing := r.needs_processing,
              callback_state := r.callback_state,
              next_response_id := r.next_response_id,
              start_time := r.start_time, responses_expected := none,
              request := r }) } := by
      cases hok
      rfl
    rw [hdb']
    show (writeFPRs db (emittedFPRs db rs) now).flow_processing_requests = _
    unfold writeFPRs
    rw [emittedFPRs_single_flow db rs cid fid fr hkeys hflow, List.map_map]
    rfl

/-- Witness for the amended C8: writing the flagged request with a start
time appends exactly the one corresponding FPR row. -/
theorem C8_amended_fpr_side_effect_witness :
    Ex.db8.flow_processing_requests = Ex.db0.flow_processing_requests ++
      [{ client_id := "C1", flow_id := "F1",
         request :=
           { client_id := "C1", flow_id := "F1",
             delivery_time := some 500 },
         delivery_time := some 500, leased_until := none,
         leased_by := none, timestamp := 50 }] := by
  have h := C8_amended_fpr_side_effect Ex.db0 [Ex.reqMsg9np] 50 "C1" "F1"
    Ex.baseFlowRow Ex.db8 (by decide) (by decide) (by rfl)
  exact h.trans (by decide)

/-! ## The leased queue primitive (C7) -/

theorem stampTake_count {α : Type} (elig : α → Bool) (stamp : α → α) :
    ∀ (n : Nat) (l : List α),
      (stampTake elig stamp n l).1 = min n (l.countP elig)
  | _, [] => by simp [stampTake]
  | 0, _ :: _ => by simp [stampTake]
  | n + 1, a :: l => by
      simp only [stampTake]
      cases he : elig a with
      | true =>
          rw [if_pos rfl]
          dsimp only
          rw [stampTake_count elig stamp n l, List.countP_cons, he]
          simp
          omega
      | false =>
          rw [if_neg (by simp)]
          dsimp only
          rw [stampTake_count elig stamp (n + 1) l, List.countP_cons, he]
          simp

theorem stampTake_filter_stamped {α : Type} (elig : α → Bool)
    (stamp : α → α) (p : α → Bool) (hstamp : ∀ a, p (stamp a) = true) :
    ∀ (n : Nat) (l : List α), (∀ a ∈ l, p a = false) →
      ((stampTake elig stamp n l).2.filter p).length =
        (stampTake elig stamp n l).1
  | _, [], _ => by simp [stampTake]
  | 0, a :: l, h => by
      simp only [stampTake]
      rw [List.filter_eq_nil_iff.mpr (by intro b hb; simp [h b hb])]
      rfl
  | n + 1, a :: l, h => by
      simp only [stampTake]
      cases he : elig a with
      | true =>
          rw [if_pos rfl]
          dsimp only
          rw [List.filter_cons, hstamp a]
          simp only [if_true]
          rw [List.length_cons,
            stampTake_filter_stamped elig stamp p hstamp n l
              (fun b hb => h b (List.mem_cons_of_mem a hb))]
      | false =>
          rw [if_neg (by simp)]
          dsimp only
          rw [List.filter_cons, h a (List.mem_cons_self a l)]
          simp only [Bool.false_eq_true, if_false]
          exact stampTake_filter_stamped elig stamp p hstamp (n + 1) l
            (fun b hb => h b (List.mem_cons_of_mem a hb))

theorem stampTake_origin {α : Type} (elig : α → Bool) (stamp : α → α) :
    ∀ (n : Nat) (l : List α) (b : α), b ∈ (stampTake elig stamp n l).2 →
      b ∈ l ∨ ∃ a ∈ l, elig a = true ∧ b = stamp a
  | _, [], b, hb => by simp [stampTake] at hb
  | 0, a :: l, b, hb => by
      simp only [stampTake] at hb
      exact Or.inl hb
  | n + 1, a :: l, b, hb => by
      simp only [stampTake] at hb
      by_cases he : elig a = true
      · rw [if_pos he] at hb
        dsimp only at hb
        rcases List.mem_cons.mp hb with h | h
        · exact Or.inr ⟨a, List.mem_cons_self a l, he, h⟩
        · rcases stampTake_origin elig stamp n l b h with h2 | ⟨c, hc, h3, h4⟩
          · exact Or.inl (List.mem_cons_of_mem a h2)
          · exact Or.inr ⟨c, List.mem_cons_of_mem a hc, h3, h4⟩
      · rw [if_neg he] at hb
        dsimp only at hb
        rcases List.mem_cons.mp hb with h | h
        · exact Or.inl (h ▸ List.mem_cons_self a l)
        · rcases stampTake_origin elig stamp (n + 1) l b h with
            h2 | ⟨c, hc, h3, h4⟩
          · exact Or.inl (List.mem_cons_of_mem a h2)
          · exact Or.inr ⟨c, List.mem_cons_of_mem a hc, h3, h4⟩

theorem stampTake_map_key {α β : Type} (elig : α → Bool) (stamp : α → α)
    (f : α → β) (hf : ∀ a, f (stamp a) = f a) :
    ∀ (n : Nat) (l : List α), (stampTake elig stamp n l).2.map f = l.map f
  | _, [] => by simp [stampTake]
  | 0, a :: l => by simp [stampTake]
  | n + 1, a :: l => by
      simp only [stampTake]
      by_cases he : elig a = true
      · rw [if_pos he]
        dsimp only
        rw [List.map_cons, List.map_cons, hf a,
          stampTake_map_key elig stamp f hf n l]
      · rw [if_neg he]
        dsimp only
        rw [List.map_cons, List.map_cons,
          stampTake_map_key elig stamp f hf (n + 1) l]

theorem leaseFPR_fst (db : DB) (limit : Nat) (now : Micros)
    (token : String) :
    (leaseFlowProcessingRequests db limit now token).1 =
      (if (stampTake (fprEligible now)
          (fprStamp (now + fprLeaseWindow) token) limit
          db.flow_processing_requests).1 == 0 then []
       else ((stampTake (fprEligible now)
          (fprStamp (now + fprLeaseWindow) token) limit
          db.flow_processing_requests).2.filter fun row =>
            row.leased_by == some token &&
            row.leased_until == some (now + fprLeaseWindow)).take
          (stampTake (fprEligible now)
            (fprStamp (now + fprLeaseWindow) token) limit
            db.flow_processing_requests).1) := by
  simp only [leaseFlowProcessingRequests]
  split <;> rfl

theorem leaseFPR_snd (db : DB) (limit : Nat) (now : Micros)
    (token : String) :
    (leaseFlowProcessingRequests db limit now token).2 =
      { db with flow_processing_requests :=
        (stampTake (fprEligible now) (fprStamp (now + fprLeaseWindow) token)
          limit db.flow_processing_requests).2 } := by
  simp only [leaseFlowProcessingRequests]
  split <;> rfl

theorem leaseFPR_length (db : DB) (limit : Nat) (now : Micros)
    (token : String)
    (hfresh : ∀ row ∈ db.flow_processing_requests,
      row.leased_by ≠ some token) :
    (leaseFlowProcessingRequests db limit now token).1.length =
      min limit (db.flow_processing_requests.countP (fprEligible now)) := by
  have hfr : ∀ row ∈ db.flow_processing_requests,
      (row.leased_by == some token &&
        row.leased_until == some (now + fprLeaseWindow)) = false := by
    intro row hrow
    rw [beq_eq_false_iff_ne.mpr (hfresh row hrow)]
    rfl
  rw [leaseFPR_fst]
  split
  · rename_i h0
    simp only [beq_iff_eq] at h0
    rw [stampTake_count] at h0
    rw [List.length_nil, h0]
  · rw [List.length_take,
      stampTake_filter_stamped _ _ _ (fun a => by simp [fprStamp]) limit _
        hfr, Nat.min_self, stampTake_count]

theorem leaseFPR_returned_stamped (db : DB) (limit : Nat) (now : Micros)
    (token : String) :
    ∀ row ∈ (leaseFlowProcessingRequests db limit now token).1,
      row.leased_by = some token ∧
      row.leased_until = some (now + fprLeaseWindow) := by
  intro row hrow
  rw [leaseFPR_fst] at hrow
  split at hrow
  · cases hrow
  · have hp := (List.mem_filter.mp (List.take_subset _ _ hrow)).2
    simp only [Bool.and_eq_true, beq_iff_eq] at hp
    exact hp

theorem leaseFPR_returned_mem (db : DB) (limit : Nat) (now : Micros)
    (token : String) :
    ∀ row ∈ (leaseFlowProcessingRequests db limit now token).1,
      row ∈ (leaseFlowProcessingRequests db limit now
        token).2.flow_processing_requests := by
  intro row hrow
  rw [leaseFPR_fst] at hrow
  rw [leaseFPR_snd]
  split at hrow
  · cases hrow
  · exact (List.mem_filter.mp (List.take_subset _ _ hrow)).1

theorem leaseMH_fst (db : DB) (lease_time : Micros) (limit : Nat)
    (now : Micros) (token : String) :
    (leaseMessageHandlerRequests db lease_time limit now token).1 =
      (if (stampTake (mhEligible now) (mhStamp (now + lease_time) token)
          limit db.message_handler_requests).1 == 0 then []
       else ((stampTake (mhEligible now) (mhStamp (now + lease_time) token)
          limit db.message_handler_requests).2.filter fun row =>
            row.leased_by == some token &&
            row.leased_until == some (now + lease_time)).take
          (stampTake (mhEligible now) (mhStamp (now + lease_time) token)
            limit db.message_handler_requests).1) := by
  simp only [leaseMessageHandlerRequests]
  split <;> rfl

theorem leaseMH_length (db : DB) (lease_time : Micros) (limit : Nat)
    (now : Micros) (token : String)
    (hfresh : ∀ row ∈ db.message_handler_requests,
      row.leased_by ≠ some token) :
    (leaseMessageHandlerRequests db lease_time limit now token).1.length =
      min limit (db.message_handler_requests.countP (mhEligible now)) := by
  have hfr : ∀ row ∈ db.message_handler_requests,
      (row.leased_by == some token &&
        row.leased_until == some (now + lease_time)) = false := by
    intro row hrow
    rw [beq_eq_false_iff_ne.mpr (hfresh row hrow)]
    rfl
  rw [leaseMH_fst]
  split
  · rename_i h0
    simp only [beq_iff_eq] at h0
    rw [stampTake_count] at h0
    rw [List.length_nil, h0]
  · rw [List.length_take,
      stampTake_filter_stamped _ _ _ (fun a => by simp [mhStamp]) limit _
        hfr, Nat.min_self, stampTake_count]

theorem leaseMH_returned_stamped (db : DB) (lease_time : Micros)
    (limit : Nat) (now : Micros) (token : String) :
    ∀ row ∈ (leaseMessageHandlerRequests db lease_time limit now token).1,
      row.leased_by = some token ∧
      row.leased_until = some (now + lease_time) := by
  intro row hrow
  rw [leaseMH_fst] at hrow
  split at hrow
  · cases hrow
  · have hp := (List.mem_filter.mp (List.take_subset _ _ hrow)).2
    simp only [Bool.and_eq_true, beq_iff_eq] at hp
    exact hp

theorem leaseMH_snd (db : DB) (lease_time : Micros) (limit : Nat)
    (now : Micros) (token : String) :
    (leaseMessageHandlerRequests db lease_time limit now token).2 =
      { db with message_handler_requests :=
        (stampTake (mhEligible now) (mhStamp (now + lease_time) token)
          limit db.message_handler_requests).2 } := by
  simp only [leaseMessageHandlerRequests]
  split <;> rfl

theorem leaseMH_returned_mem (db : DB) (lease_time : Micros) (limit : Nat)
    (now : Micros) (token : String) :
    ∀ row ∈ (leaseMessageHandlerRequests db lease_time limit now token).1,
      row ∈ (leaseMessageHandlerRequests db lease_time limit now
        token).2.message_handler_requests := by
  intro row hrow
  rw [leaseMH_fst] at hrow
  rw [leaseMH_snd]
  split at hrow
  · cases hrow
  · exact (List.mem_filter.mp (List.take_subset _ _ hrow)).1

/-- C7: leasing up to N flow processing requests claims only eligible rows
(delivery time absent or passed, lease absent or expired): with only M < N
eligible rows exactly M are returned, each stamped with
`leased_until = now + window` and the caller's token; a second lease before
expiry returns none of those rows; after the window expires the leased rows
are all eligible again; and the message-handler queue (whose rows have no
`delivery_time`, making that clause vacuous) obeys the same lease law:
count and stamp, exclusion from a second lease before expiry, and
re-eligibility after its caller-supplied window passes. -/
theorem C7_leased_queue_semantics (db : DB) (N N2 M : Nat)
    (now now2 now3 : Micros) (tok tok2 : String)
    (hM : db.flow_processing_requests.countP (fprEligible now) = M)
    (hMN : M < N)
    (hfresh : ∀ row ∈ db.flow_processing_requests, row.leased_by ≠ some tok)
    (hfresh2 : ∀ row ∈ db.flow_processing_requests,
      row.leased_by ≠ some tok2)
    (htok : tok2 ≠ tok)
    (hkeys : (db.flow_processing_requests.map fprKey).Nodup)
    (hnow2 : now2 ≤ now + fprLeaseWindow)
    (hnow3 : now + fprLeaseWindow < now3) :
    (leaseFlowProcessingRequests db N now tok).1.length = M ∧
    (∀ row ∈ (leaseFlowProcessingRequests db N now tok).1,
      row.leased_by = some tok ∧
      row.leased_until = some (now + fprLeaseWindow)) ∧
    (∀ row2 ∈ (leaseFlowProcessingRequests
        (leaseFlowProcessingRequests db N now tok).2 N2 now2 tok2).1,
      ∀ row1 ∈ (leaseFlowProcessingRequests db N now tok).1,
      fprKey row2 ≠ fprKey row1) ∧
    (∀ row ∈ (leaseFlowProcessingRequests db N now
        tok).2.flow_processing_requests,
      row.leased_by = some tok → fprEligible now3 row = true) ∧
    (∀ (mdb : DB) (lt lt2 : Micros) (L L2 : Nat)
      (mnow mnow2 mnow3 : Micros) (mtok mtok2 : String),
      (∀ row ∈ mdb.message_handler_requests, row.leased_by ≠ some mtok) →
      (∀ row ∈ mdb.message_handler_requests, row.leased_by ≠ some mtok2) →
      mtok2 ≠ mtok →
      (mdb.message_handler_requests.map mhKey).Nodup →
      mnow2 ≤ mnow + lt → mnow + lt < mnow3 →
      ((leaseMessageHandlerRequests mdb lt L mnow mtok).1.length =
        min L (mdb.message_handler_requests.countP (mhEligible mnow)) ∧
      (∀ row ∈ (leaseMessageHandlerRequests mdb lt L mnow mtok).1,
        row.leased_by = some mtok ∧
        row.leased_until = some (mnow + lt)) ∧
      (∀ row2 ∈ (leaseMessageHandlerRequests
          (leaseMessageHandlerRequests mdb lt L mnow mtok).2 lt2 L2 mnow2
          mtok2).1,
        ∀ row1 ∈ (leaseMessageHandlerRequests mdb lt L mnow mtok).1,
        mhKey row2 ≠ mhKey row1) ∧
      (∀ row ∈ (leaseMessageHandlerRequests mdb lt L mnow
          mtok).2.message_handler_requests,
        row.leased_by = some mtok → mhEligible mnow3 row = true))) := by
  have hfresh2' : ∀ row ∈ (leaseFlowProcessingRequests db N now
      tok).2.flow_processing_requests, row.leased_by ≠ some tok2 := by
    rw [leaseFPR_snd]
    intro row hrow
    rcases stampTake_origin _ _ N _ row hrow with h | ⟨a, _, _, heq⟩
    · exact hfresh2 row h
    · rw [heq]
      intro hcontra
      simp only [fprStamp, Option.some.injEq] at hcontra
      exact htok hcontra.symm
  have hkeys1 : ((leaseFlowProcessingRequests db N now
      tok).2.flow_processing_requests.map fprKey).Nodup := by
    rw [leaseFPR_snd]
    dsimp only
    rw [stampTake_map_key (fprEligible now) (fprStamp (now + fprLeaseWindow)
      tok) fprKey (fun a => rfl) N db.flow_processing_requests]
    exact hkeys
  refine ⟨?_, leaseFPR_returned_stamped db N now tok, ?_, ?_, ?_⟩
  · rw [leaseFPR_length db N now tok hfresh, hM]
    exact Nat.min_eq_right (Nat.le_of_lt hMN)
  · intro row2 hrow2 row1 hrow1 hkeyeq
    have hst1 := leaseFPR_returned_stamped db N now tok row1 hrow1
    have hst2 := leaseFPR_returned_stamped _ N2 now2 tok2 row2 hrow2
    have hrow1' := leaseFPR_returned_mem db N now tok row1 hrow1
    have hrow2' := leaseFPR_returned_mem _ N2 now2 tok2 row2 hrow2
    rw [leaseFPR_snd _ N2 now2 tok2] at hrow2'
    dsimp only at hrow2'
    rcases stampTake_origin _ _ N2 _ row2 hrow2' with h | ⟨a, ha, helig, heq⟩
    · exact hfresh2' row2 h hst2.1
    · have hkeya : fprKey a = fprKey row1 := by
        rw [← hkeyeq, heq]
        rfl
      have haa : a = row1 := List.inj_on_of_nodup_map hkeys1 ha hrow1' hkeya
      rw [haa] at helig
      unfold fprEligible at helig
      rw [hst1.2] at helig
      simp at helig
      exact absurd (Nat.lt_of_lt_of_le helig.2 hnow2) (Nat.lt_irrefl _)
  · intro row hrow htokrow
    rw [leaseFPR_snd] at hrow
    dsimp only at hrow
    rcases stampTake_origin _ _ N _ row hrow with h | ⟨a, _, helig, heq⟩
    · exact absurd htokrow (hfresh row h)
    · rw [heq]
      unfold fprEligible at helig ⊢
      simp at helig
      have h3 : a.delivery_time = none ∨ a.delivery_time.getD 0 ≤ now3 := by
        rcases helig.1 with h1 | h1
        · exact Or.inl h1
        · exact Or.inr (Nat.le_trans h1 (Nat.le_trans
            (Nat.le_add_right now fprLeaseWindow) (Nat.le_of_lt hnow3)))
      simp only [fprStamp]
      rcases h3 with h1 | h1 <;> simp [h1, hnow3]
  · intro mdb lt lt2 L L2 mnow mnow2 mnow3 mtok mtok2 hf hf2 htok2 hkeys2
      hmn2 hmn3
    have hf2' : ∀ row ∈ (leaseMessageHandlerRequests mdb lt L mnow
        mtok).2.message_handler_requests, row.leased_by ≠ some mtok2 := by
      rw [leaseMH_snd]
      intro row hrow
      rcases stampTake_origin _ _ L _ row hrow with h | ⟨a, _, _, heq⟩
      · exact hf2 row h
      · rw [heq]
        intro hcontra
        simp only [mhStamp, Option.some.injEq] at hcontra
        exact htok2 hcontra.symm
    have hkeysM : ((leaseMessageHandlerRequests mdb lt L mnow
        mtok).2.message_handler_requests.map mhKey).Nodup := by
      rw [leaseMH_snd]
      dsimp only
      rw [stampTake_map_key (mhEligible mnow) (mhStamp (mnow + lt) mtok)
        mhKey (fun a => rfl) L mdb.message_handler_requests]
      exact hkeys2
    refine ⟨leaseMH_length mdb lt L mnow mtok hf,
      leaseMH_returned_stamped mdb lt L mnow mtok, ?_, ?_⟩
    · intro row2 hrow2 row1 hrow1 hkeyeq
      have hst1 := leaseMH_returned_stamped mdb lt L mnow mtok row1 hrow1
      have hst2 := leaseMH_returned_stamped _ lt2 L2 mnow2 mtok2 row2 hrow2
      have hrow1' := leaseMH_returned_mem mdb lt L mnow mtok row1 hrow1
      have hrow2' := leaseMH_returned_mem _ lt2 L2 mnow2 mtok2 row2 hrow2
      rw [leaseMH_snd _ lt2 L2 mnow2 mtok2] at hrow2'
      dsimp only at hrow2'
      rcases stampTake_origin _ _ L2 _ row2 hrow2' with
        h | ⟨a, ha, helig, heq⟩
      · exact hf2' row2 h hst2.1
      · have hkeya : mhKey a = mhKey row1 := by
          rw [← hkeyeq, heq]
          rfl
        have haa : a = row1 := List.inj_on_of_nodup_map hkeysM ha hrow1' hkeya
        rw [haa] at helig
        unfold mhEligible at helig
        rw [hst1.2] at helig
        simp at helig
        exact absurd (Nat.lt_of_lt_of_le helig hmn2) (Nat.lt_irrefl _)
    · intro row hrow htokrow
      rw [leaseMH_snd] at hrow
      dsimp only at hrow
      rcases stampTake_origin _ _ L _ row hrow with h | ⟨a, _, _, heq⟩
      · exact absurd htokrow (hf row h)
      · rw [heq]
        unfold mhEligible
        simp [mhStamp, hmn3]

/-- Witness for C7: the FPR queue with two eligible rows and one
future-delivery row at time 100, leased with limit 5; and the
message-handler queue with one eligible row, leased at 100 for 50, leased
again at 120 by a second worker, and re-eligible at 151. -/
theorem C7_leased_queue_semantics_witness :
    (leaseFlowProcessingRequests Ex.dbQueue 5 100 "tokA").1.length = 2 ∧
    (∀ row ∈ (leaseFlowProcessingRequests Ex.dbQueue 5 100 "tokA").1,
      row.leased_by = some "tokA" ∧
      row.leased_until = some (100 + fprLeaseWindow)) ∧
    (∀ row2 ∈ (leaseFlowProcessingRequests
        (leaseFlowProcessingRequests Ex.dbQueue 5 100 "tokA").2 5 200
        "tokB").1,
      ∀ row1 ∈ (leaseFlowProcessingRequests Ex.dbQueue 5 100 "tokA").1,
      fprKey row2 ≠ fprKey row1) ∧
    (∀ row ∈ (leaseFlowProcessingRequests Ex.dbQueue 5 100
        "tokA").2.flow_processing_requests,
      row.leased_by = some "tokA" →
      fprEligible (100 + fprLeaseWindow + 1) row = true) ∧
    ((leaseMessageHandlerRequests Ex.dbMH 50 5 100 "mA").1.length =
        min 5 (Ex.dbMH.message_handler_requests.countP (mhEligible 100)) ∧
      (∀ row ∈ (leaseMessageHandlerRequests Ex.dbMH 50 5 100 "mA").1,
        row.leased_by = some "mA" ∧ row.leased_until = some (100 + 50)) ∧
      (∀ row2 ∈ (leaseMessageHandlerRequests
          (leaseMessageHandlerRequests Ex.dbMH 50 5 100 "mA").2 70 5 120
          "mB").1,
        ∀ row1 ∈ (leaseMessageHandlerRequests Ex.dbMH 50 5 100 "mA").1,
        mhKey row2 ≠ mhKey row1) ∧
      (∀ row ∈ (leaseMessageHandlerRequests Ex.dbMH 50 5 100
          "mA").2.message_handler_requests,
        row.leased_by = some "mA" → mhEligible 151 row = true)) :=
  have h := C7_leased_queue_semantics Ex.dbQueue 5 5 2 100 200
    (100 + fprLeaseWindow + 1) "tokA" "tokB" (by decide) (by decide)
    (by decide) (by decide) (by decide) (by decide) (by decide) (by decide)
  ⟨h.1, h.2.1, h.2.2.1, h.2.2.2.1,
    h.2.2.2.2 Ex.dbMH 50 70 5 5 100 120 151 "mA" "mB" (by decide)
      (by decide) (by decide) (by decide) (by decide) (by decide)⟩

/-! ## FPR scheduling per ready transition (C2) -/

theorem insertResponse_fprs (now : Micros) (db : DB) (r : FlowResponseMsg) :
    (insertResponse now db r).flow_processing_requests =
      db.flow_processing_requests := by
  unfold insertResponse
  split <;> rfl

theorem writeResponses_fprs (rs : List FlowResponseMsg) (db : DB)
    (now : Micros) :
    (writeResponses db rs now).flow_processing_requests =
      db.flow_processing_requests := by
  induction rs generalizing db with
  | nil => rfl
  | cons r t ih => rw [writeResponses_cons, ih, insertResponse_fprs]

theorem stamp_fprs (db : DB) (r : FlowResponseMsg) :
    (stampResponsesExpected db r).flow_processing_requests =
      db.flow_processing_requests := by
  unfold stampResponsesExpected
  split <;> rfl

theorem stampFold_fprs (rs : List FlowResponseMsg) (db : DB) :
    (rs.foldl stampResponsesExpected db).flow_processing_requests =
      db.flow_processing_requests := by
  induction rs generalizing db with
  | nil => rfl
  | cons r t ih => rw [List.foldl_cons, ih, stamp_fprs]

theorem writeExpected_fprs (db : DB) (rs : List FlowResponseMsg)
    (now : Micros) :
    (writeFlowResponsesAndExpectedUpdates db rs
      now).flow_processing_requests = db.flow_processing_requests := by
  unfold writeFlowResponsesAndExpectedUpdates
  rw [stampFold_fprs, writeResponses_fprs]

theorem insertResponse_flows (now : Micros) (db : DB)
    (r : FlowResponseMsg) :
    (insertResponse now db r).flows = db.flows := by
  unfold insertResponse
  split <;> rfl

theorem writeResponses_flows (rs : List FlowResponseMsg) (db : DB)
    (now : Micros) :
    (writeResponses db rs now).flows = db.flows := by
  induction rs generalizing db with
  | nil => rfl
  | cons r t ih => rw [writeResponses_cons, ih, insertResponse_flows]

theorem stamp_flows (db : DB) (r : FlowResponseMsg) :
    (stampResponsesExpected db r).flows = db.flows := by
  unfold stampResponsesExpected
  split <;> rfl

theorem stampFold_flows (rs : List FlowResponseMsg) (db : DB) :
    (rs.foldl stampResponsesExpected db).flows = db.flows := by
  induction rs generalizing db with
  | nil => rfl
  | cons r t ih => rw [List.foldl_cons, ih, stamp_flows]

theorem writeExpected_flows (db : DB) (rs : List FlowResponseMsg)
    (now : Micros) :
    (writeFlowResponsesAndExpectedUpdates db rs now).flows = db.flows := by
  unfold writeFlowResponsesAndExpectedUpdates
  rw [stampFold_flows, writeResponses_flows]

theorem update_flows (db : DB) (rs : List FlowResponseMsg) (now : Micros) :
    (updateRequestsAndScheduleFPRs db rs now).flows = db.flows := by
  simp only [updateRequestsAndScheduleFPRs]
  split <;> rfl

theorem batch_flows (db : DB) (rs : List FlowResponseMsg) (now : Micros) :
    (writeFlowResponsesBatch db rs now).flows = db.flows := by
  unfold writeFlowResponsesBatch
  rw [update_flows, writeExpected_flows]

theorem findFlow_congr {db1 db2 : DB} (h : db1.flows = db2.flows)
    (fk : FlowKey) : findFlow db1 fk = findFlow db2 fk := by
  unfold findFlow
  rw [h]

/-- `_UpdateRequestsAndScheduleFPRs` always equals marking followed by
appending the scheduled FPRs (the empty-`affected` early return appends
nothing). -/
theorem update_eq_writeFPRs (db : DB) (rs : List FlowResponseMsg)
    (now : Micros) :
    updateRequestsAndScheduleFPRs db rs now =
      writeFPRs (markNeedsProcessing db
        (responseCounts db (rs.map FlowResponseMsg.reqKey)))
        (batchFPRs db rs) now := by
  simp only [updateRequestsAndScheduleFPRs, batchFPRs]
  split
  · rename_i hemp
    rw [List.isEmpty_iff.mp hemp]
    simp [writeFPRs]
  · rfl

/-- The scheduled FPRs are exactly the affected rows whose id matches their
flow's next-request pointer, mapped to their payload's FPR message. -/
theorem batchFPRs_eq (db : DB) (rs : List FlowResponseMsg) :
    batchFPRs db rs =
      ((db.flow_requests.filter (affectedCond (responseCounts db
          (rs.map FlowResponseMsg.reqKey)))).filter fun q =>
        nextRequests db (rs.map fun r => (r.client_id, r.flow_id))
          (q.client_id, q.flow_id) == some q.request_id).map
        fun q => q.request.toFPR := by
  unfold batchFPRs affectedRequests
  rw [List.filterMap_map]
  exact filterMap_guard
    (fun q : FlowRequestRow =>
      nextRequests db (rs.map fun r => (r.client_id, r.flow_id))
        (q.client_id, q.flow_id) == some q.request_id)
    (fun q : FlowRequestRow => q.request.toFPR) _

theorem scaffold_stamp_map (db : DB) (r : FlowResponseMsg) :
    (stampResponsesExpected db r).flow_requests.map
      FlowRequestRow.scaffold =
      db.flow_requests.map FlowRequestRow.scaffold := by
  unfold stampResponsesExpected
  split
  · dsimp only
    rw [List.map_map]
    have h : FlowRequestRow.scaffold ∘ (fun q =>
        if reqKeyPred r.reqKey q then
          { q with responses_expected := some r.response_id }
        else q) = FlowRequestRow.scaffold := by
      funext q
      show FlowRequestRow.scaffold (if reqKeyPred r.reqKey q then
        { q with responses_expected := some r.response_id } else q) =
        FlowRequestRow.scaffold q
      split <;> rfl
    rw [h]
  · rfl

theorem scaffold_stampFold_map (rs : List FlowResponseMsg) (db : DB) :
    (rs.foldl stampResponsesExpected db).flow_requests.map
      FlowRequestRow.scaffold =
      db.flow_requests.map FlowRequestRow.scaffold := by
  induction rs generalizing db with
  | nil => rfl
  | cons r t ih => rw [List.foldl_cons, ih, scaffold_stamp_map]

theorem scaffold_mark_map (db : DB) (counts : ReqKey → Option Nat) :
    (markNeedsProcessing db counts).flow_requests.map
      FlowRequestRow.scaffold =
      db.flow_requests.map FlowRequestRow.scaffold := by
  unfold markNeedsProcessing
  dsimp only
  rw [List.map_map]
  have h : FlowRequestRow.scaffold ∘ (fun q =>
      if markCond counts q then { q with needs_processing := true }
      else q) = FlowRequestRow.scaffold := by
    funext q
    show FlowRequestRow.scaffold (if markCond counts q then
      { q with needs_processing := true } else q) =
      FlowRequestRow.scaffold q
    split <;> rfl
  rw [h]

/-- A `WriteFlowResponses` batch only ever changes the `needs_processing`
and `responses_expected` columns of the request table. -/
theorem scaffold_batch_map (db : DB) (rs : List FlowResponseMsg)
    (now : Micros) :
    (writeFlowResponsesBatch db rs now).flow_requests.map
      FlowRequestRow.scaffold =
      db.flow_requests.map FlowRequestRow.scaffold := by
  unfold writeFlowResponsesBatch
  rw [update_flow_requests, scaffold_mark_map]
  unfold writeFlowResponsesAndExpectedUpdates
  rw [scaffold_stampFold_map]
  exact congrArg (List.map FlowRequestRow.scaffold)
    (writeResponses_flow_requests rs db now)

theorem scaffold_mem_transport {l1 l2 : List FlowRequestRow}
    (h : l1.map FlowRequestRow.scaffold = l2.map FlowRequestRow.scaffold)
    (q : FlowRequestRow) (hq : q ∈ l1) :
    ∃ q2 ∈ l2, FlowRequestRow.scaffold q = FlowRequestRow.scaffold q2 := by
  have hm : FlowRequestRow.scaffold q ∈ l2.map FlowRequestRow.scaffold := by
    rw [← h]
    exact List.mem_map_of_mem _ hq
  rcases List.mem_map.mp hm with ⟨q2, hq2, heq⟩
  exact ⟨q2, hq2, heq.symm⟩

theorem scaffold_fields {q1 q2 : FlowRequestRow}
    (h : FlowRequestRow.scaffold q1 = FlowRequestRow.scaffold q2) :
    q1.client_id = q2.client_id ∧ q1.flow_id = q2.flow_id ∧
    q1.request_id = q2.request_id ∧ q1.callback_state = q2.callback_state ∧
    q1.request = q2.request := by
  have h1 := congrArg FlowRequestRow.client_id h
  have h2 := congrArg FlowRequestRow.flow_id h
  have h3 := congrArg FlowRequestRow.request_id h
  have h4 := congrArg FlowRequestRow.callback_state h
  have h5 := congrArg FlowRequestRow.request h
  exact ⟨h1, h2, h3, h4, h5⟩

theorem rkey_map_of_scaffold {l1 l2 : List FlowRequestRow}
    (h : l1.map FlowRequestRow.scaffold = l2.map FlowRequestRow.scaffold) :
    l1.map FlowRequestRow.rkey = l2.map FlowRequestRow.rkey := by
  have h2 := congrArg (List.map FlowRequestRow.rkey) h
  rw [List.map_map, List.map_map] at h2
  have he : FlowRequestRow.rkey ∘ FlowRequestRow.scaffold =
      FlowRequestRow.rkey := by
    funext q
    rfl
  rwa [he] at h2

theorem bool_eq_of_iff {a b : Bool} (h : a = true ↔ b = true) : a = b := by
  cases a <;> cases b <;> simp_all

theorem countP_zero_of_key_absent (k : ReqKey) (P : FlowRequestRow → Bool) :
    ∀ (l : List FlowRequestRow), (∀ q ∈ l, FlowRequestRow.rkey q ≠ k) →
      l.countP (fun q => reqKeyPred k q && P q) = 0
  | [], _ => rfl
  | a :: t, h => by
      rw [List.countP_cons]
      have ha : reqKeyPred k a = false := by
        cases hp : reqKeyPred k a
        · rfl
        · exact absurd ((reqKeyPred_iff k a).mp hp)
            (h a (List.mem_cons_self a t))
      rw [countP_zero_of_key_absent k P t
        (fun q hq => h q (List.mem_cons_of_mem a hq))]
      simp [ha]

/-- With unique request keys, a keyed count collapses to a lookup. -/
theorem countP_key_unique (k : ReqKey) (P : FlowRequestRow → Bool) :
    ∀ (l : List FlowRequestRow), (l.map FlowRequestRow.rkey).Nodup →
      l.countP (fun q => reqKeyPred k q && P q) =
        (match l.find? (reqKeyPred k) with
         | some q => if P q then 1 else 0
         | none => 0)
  | [], _ => rfl
  | a :: t, h => by
      rw [List.map_cons] at h
      have hna := (List.nodup_cons.mp h).1
      have hnd := (List.nodup_cons.mp h).2
      rw [List.countP_cons]
      cases hp : reqKeyPred k a with
      | true =>
          rw [List.find?_cons_of_pos _ hp]
          have hkey : FlowRequestRow.rkey a = k := (reqKeyPred_iff k a).mp hp
          have habs : ∀ q ∈ t, FlowRequestRow.rkey q ≠ k := by
            intro q hq hcontra
            refine hna ?_
            rw [hkey, ← hcontra]
            exact List.mem_map_of_mem FlowRequestRow.rkey hq
          rw [countP_zero_of_key_absent k P t habs]
          simp [hp]
      | false =>
          rw [List.find?_cons_of_neg _ (by simp [hp])]
          rw [countP_key_unique k P t hnd]
          simp [hp]

/-- Core counting step: among the FPRs scheduled by one completion-detection
step, those of a flow whose requests are callback-free number exactly one
when the flow's pointer request flips from unmarked to marked by the
accompanying UPDATE, and zero otherwise — in particular a request that
completes while the pointer sits elsewhere schedules nothing. -/
theorem batchFPRs_count_for_flow (db : DB) (rs : List FlowResponseMsg)
    (fk : FlowKey) (fr : FlowRow)
    (hnodup : (db.flow_requests.map FlowRequestRow.rkey).Nodup)
    (hcb : ∀ q ∈ db.flow_requests, (q.client_id, q.flow_id) = fk →
      q.callback_state = "")
    (hpay : ∀ q ∈ db.flow_requests, q.request.client_id = q.client_id ∧
      q.request.flow_id = q.flow_id)
    (hflow : findFlow db fk = some fr) :
    ((batchFPRs db rs).filter fun m =>
        m.client_id == fk.1 && m.flow_id == fk.2).length =
      (if marked db (fk.1, fk.2, fr.next_request_to_process) = false ∧
          marked (markNeedsProcessing db (responseCounts db
            (rs.map FlowResponseMsg.reqKey)))
            (fk.1, fk.2, fr.next_request_to_process) = true
       then 1 else 0) := by
  by_cases hmem : fk ∈ rs.map (fun r => (r.client_id, r.flow_id))
  · have hnext : nextRequests db (rs.map fun r => (r.client_id, r.flow_id))
        fk = some fr.next_request_to_process := by
      unfold nextRequests
      rw [if_pos hmem, hflow]
      rfl
    have hstep : ((batchFPRs db rs).filter fun m =>
        m.client_id == fk.1 && m.flow_id == fk.2).length =
        db.flow_requests.countP (fun q =>
          reqKeyPred (fk.1, fk.2, fr.next_request_to_process) q &&
          affectedCond (responseCounts db
            (rs.map FlowResponseMsg.reqKey)) q) := by
      rw [batchFPRs_eq, List.filter_map, List.length_map,
        ← List.countP_eq_length_filter, List.countP_filter,
        List.countP_filter]
      refine List.countP_congr ?_
      intro q hq
      rcases hpay q hq with ⟨hpc, hpf⟩
      simp only [Function.comp_apply, FlowRequestMsg.toFPR, reqKeyPred,
        Bool.and_eq_true, beq_iff_eq, hpc, hpf]
      constructor
      · rintro ⟨⟨⟨hc1, hf1⟩, hnx⟩, ha⟩
        refine ⟨⟨⟨hc1, hf1⟩, ?_⟩, ha⟩
        have hpair : (q.client_id, q.flow_id) = fk := by
          rw [hc1, hf1]
        rw [hpair, hnext] at hnx
        exact (Option.some.inj hnx).symm
      · rintro ⟨⟨⟨hc1, hf1⟩, hr1⟩, ha⟩
        refine ⟨⟨⟨hc1, hf1⟩, ?_⟩, ha⟩
        have hpair : (q.client_id, q.flow_id) = fk := by
          rw [hc1, hf1]
        rw [hpair, hnext, hr1]
    rw [hstep, countP_key_unique (fk.1, fk.2, fr.next_request_to_process)
      (affectedCond (responseCounts db (rs.map FlowResponseMsg.reqKey)))
      db.flow_requests hnodup]
    cases hfq : db.flow_requests.find? (reqKeyPred
        (fk.1, fk.2, fr.next_request_to_process)) with
    | none =>
        have hm2 : marked (markNeedsProcessing db (responseCounts db
            (rs.map FlowResponseMsg.reqKey)))
            (fk.1, fk.2, fr.next_request_to_process) = false := by
          unfold marked
          rw [reqNeedsProcessing_mark,
            show findRequest db (fk.1, fk.2, fr.next_request_to_process) =
              none from hfq]
          rfl
        rw [hm2, if_neg (by simp)]
    | some q =>
        have hkeyq : (q.client_id, q.flow_id, q.request_id) =
            (fk.1, fk.2, fr.next_request_to_process) :=
          (reqKeyPred_iff _ q).mp (List.find?_some hfq)
        simp only [Prod.mk.injEq] at hkeyq
        have hqmem : q ∈ db.flow_requests := List.mem_of_find?_eq_some hfq
        have hcbq : q.callback_state = "" := by
          refine hcb q hqmem ?_
          rw [hkeyq.1, hkeyq.2.1]
        have hmdb : marked db (fk.1, fk.2, fr.next_request_to_process) =
            q.needs_processing := by
          unfold marked reqNeedsProcessing
          rw [show findRequest db (fk.1, fk.2,
            fr.next_request_to_process) = some q from hfq]
          show (q.needs_processing == true) = q.needs_processing
          cases q.needs_processing <;> rfl
        have hmmark : marked (markNeedsProcessing db (responseCounts db
            (rs.map FlowResponseMsg.reqKey)))
            (fk.1, fk.2, fr.next_request_to_process) =
            (markCond (responseCounts db
              (rs.map FlowResponseMsg.reqKey)) q ||
              q.needs_processing) := by
          unfold marked
          rw [reqNeedsProcessing_mark,
            show findRequest db (fk.1, fk.2,
              fr.next_request_to_process) = some q from hfq]
          show ((markCond (responseCounts db
              (rs.map FlowResponseMsg.reqKey)) q ||
            q.needs_processing) == true) =
            (markCond (responseCounts db
              (rs.map FlowResponseMsg.reqKey)) q || q.needs_processing)
          cases markCond (responseCounts db
            (rs.map FlowResponseMsg.reqKey)) q <;>
            cases q.needs_processing <;> rfl
        have haff : affectedCond (responseCounts db
            (rs.map FlowResponseMsg.reqKey)) q =
            markCond (responseCounts db
              (rs.map FlowResponseMsg.reqKey)) q := by
          unfold affectedCond markCond
          cases responseCounts db (rs.map FlowResponseMsg.reqKey)
              (q.client_id, q.flow_id, q.request_id) with
          | none => rfl
          | some c =>
              rw [hcbq]
              simp
        show (if affectedCond (responseCounts db
            (rs.map FlowResponseMsg.reqKey)) q then 1 else 0) = _
        rw [haff, hmdb, hmmark]
        cases hn : q.needs_processing with
        | true =>
            have hmc : markCond (responseCounts db
                (rs.map FlowResponseMsg.reqKey)) q = false := by
              unfold markCond
              cases responseCounts db (rs.map FlowResponseMsg.reqKey)
                  (q.client_id, q.flow_id, q.request_id) <;> simp [hn]
            rw [hmc]
            simp
        | false =>
            simp
  · have hnone : nextRequests db (rs.map fun r =>
        (r.client_id, r.flow_id)) fk = none := by
      unfold nextRequests
      rw [if_neg hmem]
    have hcount : ((batchFPRs db rs).filter fun m =>
        m.client_id == fk.1 && m.flow_id == fk.2).length = 0 := by
      rw [batchFPRs_eq, List.filter_map, List.length_map,
        ← List.countP_eq_length_filter, List.countP_filter,
        List.countP_filter, List.countP_eq_zero]
      intro q hq
      rcases hpay q hq with ⟨hpc, hpf⟩
      simp only [Function.comp_apply, FlowRequestMsg.toFPR,
        Bool.and_eq_true, beq_iff_eq, hpc, hpf]
      intro hcontra
      rcases hcontra with ⟨⟨⟨hc1, hf1⟩, hnx⟩, _⟩
      have hpair : (q.client_id, q.flow_id) = fk := by
        rw [hc1, hf1]
      rw [hpair, hnone] at hnx
      exact Option.noConfusion hnx
    have hknotin : responseCounts db (rs.map FlowResponseMsg.reqKey)
        (fk.1, fk.2, fr.next_request_to_process) = none := by
      have hnot : (fk.1, fk.2, fr.next_request_to_process) ∉
          rs.map FlowResponseMsg.reqKey := by
        intro hin
        rcases List.mem_map.mp hin with ⟨r, hr, hrk⟩
        refine hmem (List.mem_map.mpr ⟨r, hr, ?_⟩)
        have hrk' : (r.client_id, r.flow_id, r.request_id) =
            (fk.1, fk.2, fr.next_request_to_process) := hrk
        simp only [Prod.mk.injEq] at hrk'
        show (r.client_id, r.flow_id) = fk
        rw [hrk'.1, hrk'.2.1]
      unfold responseCounts
      rw [if_neg hnot]
    have hm2 : marked (markNeedsProcessing db (responseCounts db
        (rs.map FlowResponseMsg.reqKey)))
        (fk.1, fk.2, fr.next_request_to_process) =
        marked db (fk.1, fk.2, fr.next_request_to_process) :=
      marked_mark_of_none db _ _ hknotin
    rw [hcount, hm2]
    cases hmdb : marked db (fk.1, fk.2, fr.next_request_to_process) <;>
      simp

theorem goodFor_batch {fk : FlowKey} {fr : FlowRow} {db : DB}
    (rs : List FlowResponseMsg) (now : Micros) (h : GoodFor fk fr db) :
    GoodFor fk fr (writeFlowResponsesBatch db rs now) := by
  obtain ⟨h1, h2, h3, h4⟩ := h
  have hscaf := scaffold_batch_map db rs now
  refine ⟨?_, ?_, ?_, ?_⟩
  · rw [rkey_map_of_scaffold hscaf]
    exact h1
  · intro q hq hfkq
    rcases scaffold_mem_transport hscaf q hq with ⟨q2, hq2, heq⟩
    rcases scaffold_fields heq with ⟨hc, hf, _, hcb2, _⟩
    rw [hcb2]
    refine h2 q2 hq2 ?_
    rw [← hc, ← hf]
    exact hfkq
  · intro q hq
    rcases scaffold_mem_transport hscaf q hq with ⟨q2, hq2, heq⟩
    rcases scaffold_fields heq with ⟨hc, hf, _, _, hreq⟩
    constructor
    · rw [hreq, hc]
      exact (h3 q2 hq2).1
    · rw [hreq, hf]
      exact (h3 q2 hq2).2
  · rw [findFlow_congr (batch_flows db rs now) fk]
    exact h4

/-- One `WriteFlowResponses` batch appends, for a flow with callback-free
requests, exactly one FPR row when the flow's pointer request flips to
`needs_processing`, and none otherwise. -/
theorem batch_fpr_count (db : DB) (rs : List FlowResponseMsg) (now : Micros)
    (fk : FlowKey) (fr : FlowRow) (hg : GoodFor fk fr db) :
    fprsFor (writeFlowResponsesBatch db rs now) fk =
      fprsFor db fk +
        (if marked db (fk.1, fk.2, fr.next_request_to_process) = false ∧
            marked (writeFlowResponsesBatch db rs now)
              (fk.1, fk.2, fr.next_request_to_process) = true
         then 1 else 0) := by
  obtain ⟨h1, h2, h3, h4⟩ := hg
  have hscaf1 : (writeFlowResponsesAndExpectedUpdates db rs
      now).flow_requests.map FlowRequestRow.scaffold =
      db.flow_requests.map FlowRequestRow.scaffold := by
    unfold writeFlowResponsesAndExpectedUpdates
    rw [scaffold_stampFold_map]
    exact congrArg (List.map FlowRequestRow.scaffold)
      (writeResponses_flow_requests rs db now)
  have hnodup1 : ((writeFlowResponsesAndExpectedUpdates db rs
      now).flow_requests.map FlowRequestRow.rkey).Nodup := by
    rw [rkey_map_of_scaffold hscaf1]
    exact h1
  have hcb1 : ∀ q ∈ (writeFlowResponsesAndExpectedUpdates db rs
      now).flow_requests, (q.client_id, q.flow_id) = fk →
      q.callback_state = "" := by
    intro q hq hfkq
    rcases scaffold_mem_transport hscaf1 q hq with ⟨q2, hq2, heq⟩
    rcases scaffold_fields heq with ⟨hc, hf, _, hcb2, _⟩
    rw [hcb2]
    refine h2 q2 hq2 ?_
    rw [← hc, ← hf]
    exact hfkq
  have hpay1 : ∀ q ∈ (writeFlowResponsesAndExpectedUpdates db rs
      now).flow_requests, q.request.client_id = q.client_id ∧
      q.request.flow_id = q.flow_id := by
    intro q hq
    rcases scaffold_mem_transport hscaf1 q hq with ⟨q2, hq2, heq⟩
    rcases scaffold_fields heq with ⟨hc, hf, _, _, hreq⟩
    constructor
    · rw [hreq, hc]
      exact (h3 q2 hq2).1
    · rw [hreq, hf]
      exact (h3 q2 hq2).2
  have hflow1 : findFlow (writeFlowResponsesAndExpectedUpdates db rs now)
      fk = some fr := by
    rw [findFlow_congr (writeExpected_flows db rs now) fk]
    exact h4
  have hfpr : (writeFlowResponsesBatch db rs now).flow_processing_requests =
      db.flow_processing_requests ++
        (batchFPRs (writeFlowResponsesAndExpectedUpdates db rs now)
          rs).map (fun m =>
            { client_id := m.client_id, flow_id := m.flow_id, request := m,
              delivery_time := m.delivery_time, leased_until := none,
              leased_by := none, timestamp := now }) := by
    unfold writeFlowResponsesBatch
    rw [update_eq_writeFPRs]
    show (writeFlowResponsesAndExpectedUpdates db rs
      now).flow_processing_requests ++ _ = _
    rw [writeExpected_fprs db rs now]
  have hlen : fprsFor (writeFlowResponsesBatch db rs now) fk =
      fprsFor db fk +
        ((batchFPRs (writeFlowResponsesAndExpectedUpdates db rs now)
          rs).filter fun m =>
            m.client_id == fk.1 && m.flow_id == fk.2).length := by
    unfold fprsFor
    rw [hfpr, List.filter_append, List.length_append]
    congr 1
    rw [List.filter_map, List.length_map]
    rfl
  rw [hlen, batchFPRs_count_for_flow (writeFlowResponsesAndExpectedUpdates
    db rs now) rs fk fr hnodup1 hcb1 hpay1 hflow1]
  have e1 : marked (writeFlowResponsesAndExpectedUpdates db rs now)
      (fk.1, fk.2, fr.next_request_to_process) =
      marked db (fk.1, fk.2, fr.next_request_to_process) :=
    marked_writeExpected db rs now _
  have e2 : marked (markNeedsProcessing
      (writeFlowResponsesAndExpectedUpdates db rs now)
      (responseCounts (writeFlowResponsesAndExpectedUpdates db rs now)
        (rs.map FlowResponseMsg.reqKey)))
      (fk.1, fk.2, fr.next_request_to_process) =
      marked (writeFlowResponsesBatch db rs now)
        (fk.1, fk.2, fr.next_request_to_process) := by
    refine (marked_congr ?_ _).symm
    exact update_flow_requests (writeFlowResponsesAndExpectedUpdates db rs
      now) rs now
  rw [e1, e2]

theorem foldBatches_fpr_count (fk : FlowKey) (fr : FlowRow) (now : Micros) :
    ∀ (chunks : List (List FlowResponseMsg)) (db : DB), GoodFor fk fr db →
      fprsFor (chunks.foldl (fun d batch =>
          writeFlowResponsesBatch d batch now) db) fk =
        fprsFor db fk +
          (if marked db (fk.1, fk.2, fr.next_request_to_process) = false ∧
              marked (chunks.foldl (fun d batch =>
                writeFlowResponsesBatch d batch now) db)
                (fk.1, fk.2, fr.next_request_to_process) = true
           then 1 else 0)
  | [], db, _ => by
      rw [List.foldl_nil]
      cases h : marked db (fk.1, fk.2, fr.next_request_to_process) <;> simp
  | c :: t, db, hg => by
      simp only [List.foldl_cons]
      have hb := batch_fpr_count db c now fk fr hg
      have hrest := foldBatches_fpr_count fk fr now t
        (writeFlowResponsesBatch db c now) (goodFor_batch c now hg)
      rw [hrest, hb]
      cases hdb : marked db (fk.1, fk.2, fr.next_request_to_process) with
      | true =>
          have hbm : marked (writeFlowResponsesBatch db c now)
              (fk.1, fk.2, fr.next_request_to_process) = true :=
            marked_batch_mono db c now _ hdb
          have hfm : marked (t.foldl (fun d batch =>
              writeFlowResponsesBatch d batch now)
              (writeFlowResponsesBatch db c now))
              (fk.1, fk.2, fr.next_request_to_process) = true :=
            marked_foldBatches_mono _ now t _ hbm
          simp [hbm, hfm]
      | false =>
          cases hbm : marked (writeFlowResponsesBatch db c now)
              (fk.1, fk.2, fr.next_request_to_process) with
          | true =>
              have hfm : marked (t.foldl (fun d batch =>
                  writeFlowResponsesBatch d batch now)
                  (writeFlowResponsesBatch db c now))
                  (fk.1, fk.2, fr.next_request_to_process) = true :=
                marked_foldBatches_mono _ now t _ hbm
              simp [hbm, hfm]
          | false =>
              simp [hbm]

theorem goodFor_foldBatches {fk : FlowKey} {fr : FlowRow} (now : Micros) :
    ∀ (chunks : List (List FlowResponseMsg)) (db : DB), GoodFor fk fr db →
      GoodFor fk fr (chunks.foldl (fun d batch =>
        writeFlowResponsesBatch d batch now) db)
  | [], _, h => h
  | c :: t, db, h => by
      simp only [List.foldl_cons]
      exact goodFor_foldBatches now t _ (goodFor_batch c now h)

theorem goodFor_write {fk : FlowKey} {fr : FlowRow} (db : DB)
    (rs : List FlowResponseMsg) (B : Nat) (now : Micros)
    (h : GoodFor fk fr db) :
    GoodFor fk fr (writeFlowResponses db rs B now) := by
  unfold writeFlowResponses
  split
  · exact h
  · exact goodFor_foldBatches now (rs.toChunks B) db h

/-- One `WriteFlowResponses` call appends exactly one FPR for a flow when
its pointer request transitions during the call, and none otherwise. -/
theorem write_fpr_count (db : DB) (rs : List FlowResponseMsg) (B : Nat)
    (now : Micros) (fk : FlowKey) (fr : FlowRow) (hg : GoodFor fk fr db) :
    fprsFor (writeFlowResponses db rs B now) fk =
      fprsFor db fk +
        (if marked db (fk.1, fk.2, fr.next_request_to_process) = false ∧
            marked (writeFlowResponses db rs B now)
              (fk.1, fk.2, fr.next_request_to_process) = true
         then 1 else 0) := by
  unfold writeFlowResponses
  split
  · cases h : marked db (fk.1, fk.2, fr.next_request_to_process) <;> simp
  · exact foldBatches_fpr_count fk fr now (rs.toChunks B) db hg

theorem runCalls_fpr_count (fk : FlowKey) (fr : FlowRow) (B : Nat) :
    ∀ (cs : List WriteCall) (db : DB), GoodFor fk fr db →
      fprsFor (runCalls db B cs) fk =
        fprsFor db fk +
          (if marked db (fk.1, fk.2, fr.next_request_to_process) = false ∧
              marked (runCalls db B cs)
                (fk.1, fk.2, fr.next_request_to_process) = true
           then 1 else 0)
  | [], db, _ => by
      unfold runCalls
      cases h : marked db (fk.1, fk.2, fr.next_request_to_process) <;> simp
  | c :: t, db, hg => by
      unfold runCalls
      have hw := write_fpr_count db c.responses B c.now fk fr hg
      have hrest := runCalls_fpr_count fk fr B t
        (writeFlowResponses db c.responses B c.now)
        (goodFor_write db c.responses B c.now hg)
      rw [hrest, hw]
      cases hdb : marked db (fk.1, fk.2, fr.next_request_to_process) with
      | true =>
          have hbm : marked (writeFlowResponses db c.responses B c.now)
              (fk.1, fk.2, fr.next_request_to_process) = true :=
            marked_write_mono _ db c.responses B c.now hdb
          have hfm : marked (runCalls (writeFlowResponses db c.responses B
              c.now) B t) (fk.1, fk.2, fr.next_request_to_process) = true :=
            marked_runCalls_mono _ B t _ hbm
          simp [hbm, hfm]
      | false =>
          cases hbm : marked (writeFlowResponses db c.responses B c.now)
              (fk.1, fk.2, fr.next_request_to_process) with
          | true =>
              have hfm : marked (runCalls (writeFlowResponses db
                  c.responses B c.now) B t)
                  (fk.1, fk.2, fr.next_request_to_process) = true :=
                marked_runCalls_mono _ B t _ hbm
              simp [hbm, hfm]
          | false =>
              simp [hbm]

/-- C2: for every flow whose requests are callback-free, carry payloads
consistent with their key columns, and have unique keys, any sequence of
`WriteFlowResponses` calls appends exactly one FlowProcessingRequest for
that flow when the request at the flow's `next_request_to_process` id
transitions from unmarked to `needs_processing` during the sequence, and
zero otherwise — so a request completing while its id differs from the
flow's current `next_request_to_process` emits nothing, and a completed
(marked) request never emits again. -/
theorem C2_exactly_one_fpr_per_ready_transition (db : DB) (B : Nat)
    (cs : List WriteCall) (fk : FlowKey) (fr : FlowRow)
    (hnodup : (db.flow_requests.map FlowRequestRow.rkey).Nodup)
    (hcb : ∀ q ∈ db.flow_requests, (q.client_id, q.flow_id) = fk →
      q.callback_state = "")
    (hpay : ∀ q ∈ db.flow_requests, q.request.client_id = q.client_id ∧
      q.request.flow_id = q.flow_id)
    (hflow : findFlow db fk = some fr) :
    fprsFor (runCalls db B cs) fk =
      fprsFor db fk +
        (if marked db (fk.1, fk.2, fr.next_request_to_process) = false ∧
            marked (runCalls db B cs)
              (fk.1, fk.2, fr.next_request_to_process) = true
         then 1 else 0) :=
  runCalls_fpr_count fk fr B cs db ⟨hnodup, hcb, hpay, hflow⟩

/-- Witness for C2, the claim's concrete scenario: flow with
`next_request_to_process = 3`, request 3 expecting 2 responses; after
writing response 1 of 2 the transition indicator and the FPR count are 0,
after also writing the status (2 of 2) both are 1. -/
theorem C2_exactly_one_fpr_per_ready_transition_witness :
    (fprsFor (runCalls Ex.db0 100 [{ responses := [Ex.resp1], now := 10 }])
        ("C1", "F1") =
      fprsFor Ex.db0 ("C1", "F1") +
        (if marked Ex.db0
            ("C1", "F1", Ex.baseFlowRow.next_request_to_process) = false ∧
            marked (runCalls Ex.db0 100
              [{ responses := [Ex.resp1], now := 10 }])
              ("C1", "F1", Ex.baseFlowRow.next_request_to_process) = true
         then 1 else 0)) ∧
    (fprsFor (runCalls Ex.db0 100 [{ responses := [Ex.resp1], now := 10 },
        { responses := [Ex.stat2], now := 20 }]) ("C1", "F1") =
      fprsFor Ex.db0 ("C1", "F1") +
        (if marked Ex.db0
            ("C1", "F1", Ex.baseFlowRow.next_request_to_process) = false ∧
            marked (runCalls Ex.db0 100
              [{ responses := [Ex.resp1], now := 10 },
                { responses := [Ex.stat2], now := 20 }])
              ("C1", "F1", Ex.baseFlowRow.next_request_to_process) = true
         then 1 else 0)) ∧
    fprsFor (runCalls Ex.db0 100 [{ responses := [Ex.resp1], now := 10 }])
      ("C1", "F1") = 0 ∧
    fprsFor (runCalls Ex.db0 100 [{ responses := [Ex.resp1], now := 10 },
      { responses := [Ex.stat2], now := 20 }]) ("C1", "F1") = 1 :=
  ⟨C2_exactly_one_fpr_per_ready_transition Ex.db0 100
      [{ responses := [Ex.resp1], now := 10 }] ("C1", "F1") Ex.baseFlowRow
      (by decide) (by decide) (by decide) (by decide),
    C2_exactly_one_fpr_per_ready_transition Ex.db0 100
      [{ responses := [Ex.resp1], now := 10 },
        { responses := [Ex.stat2], now := 20 }] ("C1", "F1")
      Ex.baseFlowRow (by decide) (by decide) (by decide) (by decide),
    by decide, by decide⟩

end GrrFlows
